import Mathlib

/-!
Verification of the Mobile_LogoCraft image-processing core against its
natural-language specification.

The Python source is shallowly embedded:
* pure numeric code becomes Lean functions over `Nat`/`Int`/`ℚ`
  (Python float arithmetic is modelled by exact rationals, `int(x)` on a
  nonnegative value by `Int.floor`, Python `//` by `Int.fdiv`);
* images become `Grid` structures (height, width, and a total pixel
  function; reads are clamped to the image domain exactly where the
  underlying NumPy / OpenCV operation clamps or replicates borders);
* fallible Python code becomes `Except PyErr`-valued functions, and a
  `try/except` boundary becomes a `match` on that result;
* the two external segmentation routines whose algorithms live outside
  this repository (OpenCV contour extraction and GrabCut) are passed in
  as an explicit oracle record `CV2Ext`; everything that the repository
  itself computes is embedded concretely.
-/

namespace LogoCraft

/-! ## Basic pixel and grid types -/

/-- A BGR color pixel (OpenCV channel order), each channel in 0..255. -/
structure BGR where
  b : Nat
  g : Nat
  r : Nat
  deriving DecidableEq, Repr

/-- A BGRA color pixel (OpenCV channel order with alpha). -/
structure BGRA where
  b : Nat
  g : Nat
  r : Nat
  a : Nat
  deriving DecidableEq, Repr

/-- An RGBA pixel (PIL channel order). -/
structure RGBA where
  r : Nat
  g : Nat
  b : Nat
  a : Nat
  deriving DecidableEq, Repr

/-- A rectangular pixel grid: `h` rows, `w` columns, and a total pixel
function indexed row-first (`px y x`), origin top-left, matching NumPy
`array[y, x]` indexing. Values outside the `h × w` domain are irrelevant
to every theorem below. -/
structure Grid (α : Type) where
  h : Nat
  w : Nat
  px : Nat → Nat → α

/-- Grid holding a constant value everywhere. -/
def Grid.const (h w : Nat) (c : α) : Grid α := ⟨h, w, fun _ _ => c⟩

/-- The grid is constantly `c` on its own domain. -/
def Grid.IsConstOn (g : Grid α) (c : α) : Prop :=
  ∀ y x, y < g.h → x < g.w → g.px y x = c

theorem Grid.isConstOn_const (h w : Nat) (c : α) :
    (Grid.const h w c).IsConstOn c := by
  intro y x _ _; rfl

/-- Clamp an integer coordinate into `[0, n-1]` (border replication, the
read behavior of the OpenCV filters used by this code base). -/
def clampIdx (n : Nat) (i : Int) : Nat :=
  if i < 0 then 0 else min i.toNat (n - 1)

theorem clampIdx_lt (n : Nat) (i : Int) (hn : 0 < n) : clampIdx n i < n := by
  unfold clampIdx
  split
  · exact hn
  · exact lt_of_le_of_lt (min_le_right _ _) (Nat.sub_lt hn Nat.one_pos)

/-- Clamped read from a grid. -/
def Grid.at (g : Grid α) (y x : Int) : α :=
  g.px (clampIdx g.h y) (clampIdx g.w x)

theorem Grid.at_of_isConstOn {g : Grid α} {c : α} (hc : g.IsConstOn c)
    (hh : 0 < g.h) (hw : 0 < g.w) (y x : Int) : g.at y x = c :=
  hc _ _ (clampIdx_lt _ _ hh) (clampIdx_lt _ _ hw)

/-! ## Python-level error values -/

/-- The Python exceptions observable through the `str(e)` messages that the
orchestrator stores in `Failed` results. -/
inductive PyErr where
  | valueError (msg : String)
  | typeError (msg : String)
  | keyError (key : String)
  | indexError
  | zeroDivisionError
  deriving DecidableEq, Repr

/-- `str(e)` for an exception: Python renders a `KeyError` as the repr of
its key (quotes included; we keep just the key text, which is enough to
distinguish the messages compared below). -/
def PyErr.msg : PyErr → String
  | .valueError s => s
  | .typeError s => s
  | .keyError k => k
  | .indexError => "index out of bounds"
  | .zeroDivisionError => "division by zero"

/-! ## Python keyword-argument binding

`src/services/image_processing_service.py` calls two constructors/methods
with keyword arguments. CPython binds each keyword to a declared formal
parameter and raises `TypeError` when a keyword matches no parameter; we
embed exactly that check. -/

/-- Bind a keyword-argument list against a function's declared parameter
names: Python raises `TypeError: ... got an unexpected keyword argument`
at the first keyword that is not a declared parameter. -/
def bindKwargs (fname : String) (params : List String) (kwargs : List String) :
    Except PyErr Unit :=
  match kwargs.find? (fun k => ¬ params.contains k) with
  | some k =>
      Except.error (.typeError
        (fname ++ " got an unexpected keyword argument " ++ k))
  | none => Except.ok ()

/-! ## C1 — `ImageProcessor.calculate_dimensions`
(src/src/models/image_processor.py lines 122-137) -/

/-- Embeds `ImageProcessor.calculate_dimensions`.

Python source (image_processor.py:122-137): float ratios
`img_width / img_height` and `target_width / target_height` are modelled
by exact rationals; `int(x)` on the nonnegative products is modelled by
`Int.floor ... |>.toNat` (Python `int()` truncates toward zero; the
operands here are nonnegative, where truncation equals floor). -/
def calculate_dimensions (img_size target_size : Nat × Nat) : Nat × Nat :=
  let img_width := img_size.1
  let img_height := img_size.2
  let target_width := target_size.1
  let target_height := target_size.2
  let imgQ : ℚ := (img_width : ℚ) / (img_height : ℚ)
  let targetQ : ℚ := (target_width : ℚ) / (target_height : ℚ)
  if targetQ < imgQ then
    ((⌊(target_height : ℚ) * imgQ⌋).toNat, target_height)
  else
    (target_width, (⌊(target_width : ℚ) / imgQ⌋).toNat)

/-- C1, counterexample. The spec claims that for a source relatively wider
than the target (`img_ratio > target_ratio`) the computed size is
`(target_w, round(target_w / img_ratio))`, hence fits inside the target.
On source 200×100 and target 100×100 the code returns (200, 100): the
width branch is the opposite of the claimed one and the result exceeds
the target width, so the scaled image does not fit inside the target. -/
theorem calculate_dimensions_not_fit :
    calculate_dimensions (200, 100) (100, 100) = (200, 100) ∧
    ¬ ((calculate_dimensions (200, 100) (100, 100)).1 ≤ 100 ∧
       (calculate_dimensions (200, 100) (100, 100)).2 ≤ 100) := by
  constructor
  · norm_num [calculate_dimensions]
    decide
  · norm_num [calculate_dimensions]

/-- C1, amended. What `calculate_dimensions` actually computes: when the
source is relatively wider it keeps the target height and sets the width
to `int(target_h * img_ratio)`, otherwise it keeps the target width and
sets the height to `int(target_w / img_ratio)` (truncation, not
rounding). Consequently `new_w ≥ target_w` and `new_h ≥ target_h`: the
scaled image covers the target canvas (cropping on paste), it does not
fit inside it. -/
theorem calculate_dimensions_covers (iw ih tw th : Nat)
    (hiw : 0 < iw) (hih : 0 < ih) (htw : 0 < tw) (hth : 0 < th) :
    calculate_dimensions (iw, ih) (tw, th) =
      (if ((tw : ℚ) / th) < ((iw : ℚ) / ih) then
        ((⌊(th : ℚ) * ((iw : ℚ) / ih)⌋).toNat, th)
       else
        (tw, (⌊(tw : ℚ) / ((iw : ℚ) / ih)⌋).toNat)) ∧
    tw ≤ (calculate_dimensions (iw, ih) (tw, th)).1 ∧
    th ≤ (calculate_dimensions (iw, ih) (tw, th)).2 := by
  have hihQ : (0 : ℚ) < (ih : ℚ) := by exact_mod_cast hih
  have hiwQ : (0 : ℚ) < (iw : ℚ) := by exact_mod_cast hiw
  have htwQ : (0 : ℚ) < (tw : ℚ) := by exact_mod_cast htw
  have hthQ : (0 : ℚ) < (th : ℚ) := by exact_mod_cast hth
  have himg : (0 : ℚ) < (iw : ℚ) / (ih : ℚ) := div_pos hiwQ hihQ
  have htgt : (0 : ℚ) < (tw : ℚ) / (th : ℚ) := div_pos htwQ hthQ
  unfold calculate_dimensions
  refine ⟨rfl, ?_⟩
  by_cases hcase : ((tw : ℚ) / th) < ((iw : ℚ) / ih)
  · simp only [hcase, if_true]
    refine ⟨?_, le_refl th⟩
    have h1 : (tw : ℚ) ≤ (th : ℚ) * ((iw : ℚ) / ih) := by
      have : (th : ℚ) * ((tw : ℚ) / th) ≤ (th : ℚ) * ((iw : ℚ) / ih) :=
        mul_le_mul_of_nonneg_left (le_of_lt hcase) (le_of_lt hthQ)
      calc (tw : ℚ) = (th : ℚ) * ((tw : ℚ) / th) := by field_simp
        _ ≤ _ := this
    have h2 : (tw : ℤ) ≤ ⌊(th : ℚ) * ((iw : ℚ) / ih)⌋ := by
      rw [Int.le_floor]; exact_mod_cast h1
    have h3 : (0 : ℤ) ≤ ⌊(th : ℚ) * ((iw : ℚ) / ih)⌋ :=
      le_trans (by exact_mod_cast Nat.zero_le tw) h2
    exact_mod_cast (Int.toNat_le_toNat h2)
  · simp only [hcase, if_false]
    refine ⟨le_refl tw, ?_⟩
    have hle : ((iw : ℚ) / ih) ≤ ((tw : ℚ) / th) := not_lt.mp hcase
    have h1 : (th : ℚ) ≤ (tw : ℚ) / ((iw : ℚ) / ih) := by
      have hdiv : (tw : ℚ) / ((tw : ℚ) / th) ≤ (tw : ℚ) / ((iw : ℚ) / ih) :=
        div_le_div_of_nonneg_left (le_of_lt htwQ) himg hle
      calc (th : ℚ) = (tw : ℚ) / ((tw : ℚ) / th) := by
            rw [div_div_eq_mul_div]; field_simp
        _ ≤ _ := hdiv
    have h2 : (th : ℤ) ≤ ⌊(tw : ℚ) / ((iw : ℚ) / ih)⌋ := by
      rw [Int.le_floor]; exact_mod_cast h1
    exact_mod_cast (Int.toNat_le_toNat h2)

/-- C1, witness for `calculate_dimensions_covers` at source 300×100,
target 100×200. -/
theorem calculate_dimensions_covers_witness :
    calculate_dimensions (300, 100) (100, 200) =
      (if ((100 : ℚ) / 200) < ((300 : ℚ) / 100) then
        ((⌊(200 : ℚ) * ((300 : ℚ) / 100)⌋).toNat, 200)
       else
        (100, (⌊(100 : ℚ) / ((300 : ℚ) / 100)⌋).toNat)) ∧
    100 ≤ (calculate_dimensions (300, 100) (100, 200)).1 ∧
    200 ≤ (calculate_dimensions (300, 100) (100, 200)).2 :=
  calculate_dimensions_covers 300 100 100 200
    (by decide) (by decide) (by decide) (by decide)

/-! ## C9 — `RemovalMethod`
(src/src/models/background_remover.py lines 23-29, 46-55) -/

/-- Embeds the `RemovalMethod` enumeration from background_remover.py:
exactly the five members declared there. -/
inductive RemovalMethod where
  | contour_detection
  | threshold
  | chroma_key
  | grabcut
  | combined
  deriving DecidableEq, Repr

instance : Fintype RemovalMethod :=
  ⟨⟨{.contour_detection, .threshold, .chroma_key, .grabcut, .combined}, by decide⟩,
    by intro x; cases x <;> decide⟩

/-- Embeds the default of `BackgroundRemover.__init__`
(`method: RemovalMethod = RemovalMethod.COMBINED`). -/
def backgroundRemoverDefaultMethod : RemovalMethod := .combined

/-- C9, counterexample. The spec claims the removal-method type is a
closed set of exactly six variants including NeuralNetwork; the `enum` in
background_remover.py declares exactly five members and no
neural-network strategy exists anywhere in the class. -/
theorem removalMethod_not_six_variants :
    Fintype.card RemovalMethod = 5 ∧ Fintype.card RemovalMethod ≠ 6 := by
  decide

/-- C9, amended. The removal-method type is a closed set of exactly five
variants (ContourDetection, Threshold, ChromaKey, GrabCut, Combined);
there is no NeuralNetwork variant, and Combined is the default method
when none is specified. -/
theorem removalMethod_five_variants_default_combined :
    Fintype.card RemovalMethod = 5 ∧
    backgroundRemoverDefaultMethod = RemovalMethod.combined := by
  decide

/-! ## OpenCV primitives used by the repository

These model the specific OpenCV/NumPy entry points that
background_remover.py and push_processor.py call, at the granularity the
repository observes. All arithmetic is exact (`Nat`/`Int`/`ℚ`). -/

/-- Grayscale single-channel image / binary mask. -/
abbrev Gray := Grid Nat

/-- Models `cv2.cvtColor(image, cv2.COLOR_BGR2GRAY)`: OpenCV's fixed-point
BT.601 luma, `Y = (R*4899 + G*9617 + B*1868 + 2^13) >> 14`. -/
def cvtColor_BGR2GRAY (image : Grid BGR) : Gray :=
  ⟨image.h, image.w, fun y x =>
    let p := image.px y x
    (p.r * 4899 + p.g * 9617 + p.b * 1868 + 8192) / 16384⟩

/-- Models `cv2.cvtColor` applied to an RGB-ordered pixel (push
processor path): same BT.601 coefficients keyed by channel role. -/
def rgbaToGray (p : RGBA) : Nat :=
  (p.r * 4899 + p.g * 9617 + p.b * 1868 + 8192) / 16384

/-- The border-pixel sample of `detect_white_background`
(background_remover.py:459-464): top row, bottom row, then the left and
right columns with their first and last entries excluded (NumPy slices
`gray[0, :]`, `gray[-1, :]`, `gray[1:-1, 0]`, `gray[1:-1, -1]`). -/
def borderPixels (gray : Gray) : List Nat :=
  ((List.range gray.w).map fun x => gray.px 0 x) ++
  ((List.range gray.w).map fun x => gray.px (gray.h - 1) x) ++
  ((List.range (gray.h - 2)).map fun i => gray.px (i + 1) 0) ++
  ((List.range (gray.h - 2)).map fun i => gray.px (i + 1) (gray.w - 1))

/-- The fraction of border samples at or above the brightness threshold
(the quantity `white_percentage` of background_remover.py:466-467). -/
def borderWhiteFraction (image : Grid BGR) (threshold : Nat := 240) : ℚ :=
  let bp := borderPixels (cvtColor_BGR2GRAY image)
  ((bp.filter fun v => threshold ≤ v).length : ℚ) / (bp.length : ℚ)

/-- Embeds `BackgroundRemover.detect_white_background`
(background_remover.py:438-470). An empty image raises inside the NumPy
border indexing (`gray[0, :]` / scalar column index on a size-0 axis),
modelled as `IndexError`; with `h ≥ 1` and `w ≥ 1` the border sample is
nonempty, so the division cannot raise and a Bool is returned. -/
def detect_white_background (image : Grid BGR) (threshold : Nat := 240)
    (coverage : ℚ := 9/10) : Except PyErr Bool :=
  if image.h = 0 ∨ image.w = 0 then Except.error .indexError
  else Except.ok (coverage ≤ borderWhiteFraction image threshold)

/-- Embeds `BackgroundRemover._add_alpha_channel`
(background_remover.py:406-414) on its documented 3-channel (BGR) input:
copies the color channels and sets alpha 255 everywhere. (The source
also has a branch returning an already-4-channel array unchanged; every
repository call site reaching this helper passes a 3-channel array,
which is what the embedding types.) -/
def add_alpha_channel (image : Grid BGR) : Grid BGRA :=
  ⟨image.h, image.w, fun y x =>
    let p := image.px y x
    ⟨p.b, p.g, p.r, 255⟩⟩

/-- Round to nearest and saturate to the uint8 range (OpenCV stores
filter outputs back into 8-bit arrays). -/
def clip8 (q : ℚ) : Nat := min 255 (max 0 ⌊q + 1/2⌋).toNat

/-- Normalize a weight list to total mass 1 (OpenCV and PIL both
normalize their resampling/filter kernels before use). -/
def normalizeQ (l : List ℚ) : List ℚ := l.map (· / l.sum)

/-- Models `cv2.getGaussianKernel`. For `sigma ≤ 0` and kernel size 1, 3,
5 or 7, OpenCV uses its fixed `small_gaussian_tab`, embedded here
exactly. For positive `sigma` OpenCV fills the taps with the
transcendental `exp(-d^2/(2*sigma^2))` and normalizes; the raw tap is
replaced by the rational surrogate `1/(1 + (d/sigma)^2)`, which is
positive and symmetric like the Gaussian. Every theorem in this file
depends only on the kernel being positive with normalized total mass 1,
properties the surrogate shares with the exact Gaussian. -/
def gaussianKernelRaw (ksize : Nat) (sigma : ℚ) : List ℚ :=
  if sigma ≤ 0 ∧ ksize = 1 then [1]
  else if sigma ≤ 0 ∧ ksize = 3 then [1/4, 1/2, 1/4]
  else if sigma ≤ 0 ∧ ksize = 5 then [1/16, 1/4, 3/8, 1/4, 1/16]
  else if sigma ≤ 0 ∧ ksize = 7 then
    [4/128, 14/128, 28/128, 36/128, 28/128, 14/128, 4/128]
  else
    let s : ℚ := if sigma ≤ 0 then 3/10 * (((ksize : ℚ) - 1)/2 - 1) + 4/5 else sigma
    (List.range ksize).map fun (i : Nat) =>
      let d : ℚ := ((i : Nat) : ℚ) - ((ksize : ℚ) - 1)/2
      1 / (1 + (d / s) ^ 2)

/-- Weighted sum of `f` over the taps of a kernel list. -/
def wsum (k : List ℚ) (f : Nat → ℚ) : ℚ :=
  (k.enum.map fun p => p.2 * f p.1).sum

/-- Models `cv2.GaussianBlur(src, (ksize, ksize), sigma)` with
border replication: separable kernel, rounded and saturated to uint8. -/
def gaussianBlur (g : Gray) (ksize : Nat) (sigma : ℚ) : Gray :=
  let k := normalizeQ (gaussianKernelRaw ksize sigma)
  let c : Int := (ksize : Int) / 2
  ⟨g.h, g.w, fun y x =>
    clip8 (wsum k fun i => wsum k fun j =>
      ((g.at ((y : Int) + (i : Int) - c) ((x : Int) + (j : Int) - c) : Nat) : ℚ))⟩

/-- Horizontal Sobel derivative (aperture 3, border replication), as
used inside `cv2.Canny`. -/
def sobelX (g : Gray) (y x : Int) : Int :=
  ((g.at (y-1) (x+1) : Nat) : Int) + 2 * ((g.at y (x+1) : Nat) : Int)
    + ((g.at (y+1) (x+1) : Nat) : Int)
  - (((g.at (y-1) (x-1) : Nat) : Int) + 2 * ((g.at y (x-1) : Nat) : Int)
    + ((g.at (y+1) (x-1) : Nat) : Int))

/-- Vertical Sobel derivative (aperture 3, border replication). -/
def sobelY (g : Gray) (y x : Int) : Int :=
  ((g.at (y+1) (x-1) : Nat) : Int) + 2 * ((g.at (y+1) x : Nat) : Int)
    + ((g.at (y+1) (x+1) : Nat) : Int)
  - (((g.at (y-1) (x-1) : Nat) : Int) + 2 * ((g.at (y-1) x : Nat) : Int)
    + ((g.at (y-1) (x+1) : Nat) : Int))

/-- Gradient magnitude in the L1 norm, `cv2.Canny`'s default
(`L2gradient=False`). -/
def cannyMag (g : Gray) (y x : Int) : Int :=
  |sobelX g y x| + |sobelY g y x|

/-- Non-maximum suppression along the quantized gradient direction,
using OpenCV's integer direction quantization (`TG22 = 13573`, shifts 15
and 16). Tie-breaking is uniformly non-strict where OpenCV mixes strict
and non-strict comparisons; no theorem below depends on ties. -/
def cannyNms (g : Gray) (y x : Int) : Bool :=
  let dx := sobelX g y x
  let dy := sobelY g y x
  let m := cannyMag g y x
  let y15 := dy.natAbs * 32768
  let tg22x := dx.natAbs * 13573
  if y15 < tg22x then
    decide (cannyMag g y (x-1) ≤ m ∧ cannyMag g y (x+1) ≤ m)
  else if tg22x + dx.natAbs * 65536 < y15 then
    decide (cannyMag g (y-1) x ≤ m ∧ cannyMag g (y+1) x ≤ m)
  else if (0 ≤ dx ∧ 0 ≤ dy) ∨ (dx ≤ 0 ∧ dy ≤ 0) then
    decide (cannyMag g (y-1) (x-1) ≤ m ∧ cannyMag g (y+1) (x+1) ≤ m)
  else
    decide (cannyMag g (y-1) (x+1) ≤ m ∧ cannyMag g (y+1) (x-1) ≤ m)

/-- The eight neighbor offsets used by Canny hysteresis. -/
def neigh8 : List (Int × Int) :=
  [(-1, -1), (-1, 0), (-1, 1), (0, -1), (0, 1), (1, -1), (1, 0), (1, 1)]

/-- One expansion step of hysteresis: keep current edges and add weak
candidates 8-adjacent to a current edge. -/
def reachStep (cand : Nat → Nat → Bool) (h w : Nat)
    (cur : Nat → Nat → Bool) : Nat → Nat → Bool :=
  fun y x => cur y x ||
    (cand y x && neigh8.any fun d =>
      let yy := (y : Int) + d.1
      let xx := (x : Int) + d.2
      decide (0 ≤ yy) && decide (yy < (h : Int)) &&
      decide (0 ≤ xx) && decide (xx < (w : Int)) && cur yy.toNat xx.toNat)

/-- Iterated hysteresis expansion (a fuel of `h*w` steps reaches the
fixed point). -/
def reachN (cand : Nat → Nat → Bool) (h w : Nat)
    (strong : Nat → Nat → Bool) : Nat → Nat → Nat → Bool
  | 0 => strong
  | n + 1 => reachStep cand h w (reachN cand h w strong n)

/-- Models `cv2.Canny(src, lo, hi)` with aperture 3 and L1 gradient:
a pixel is an edge iff it survives non-maximum suppression, exceeds the
low threshold, and is 8-connected through such candidates to a pixel
exceeding the high threshold. -/
def canny (g : Gray) (lo hi : Nat) : Gray :=
  let cand := fun (y x : Nat) =>
    decide ((lo : Int) < cannyMag g y x) && cannyNms g y x
  let strong := fun (y x : Nat) =>
    decide ((hi : Int) < cannyMag g y x) && cannyNms g y x
  let finalEdges := reachN cand g.h g.w strong (g.h * g.w)
  ⟨g.h, g.w, fun y x => if finalEdges y x then 255 else 0⟩

/-- Models `cv2.dilate` with a structuring element given as anchored
offsets: maximum over the in-bounds taps (out-of-image taps do not
contribute, OpenCV's default morphology border). -/
def dilateK (g : Gray) (ker : List (Int × Int)) : Gray :=
  ⟨g.h, g.w, fun y x =>
    (ker.filterMap fun d =>
      let yy := (y : Int) + d.1
      let xx := (x : Int) + d.2
      if 0 ≤ yy ∧ yy < (g.h : Int) ∧ 0 ≤ xx ∧ xx < (g.w : Int) then
        some (g.px yy.toNat xx.toNat)
      else none).foldl max 0⟩

/-- Models `cv2.erode`: minimum over the in-bounds taps. -/
def erodeK (g : Gray) (ker : List (Int × Int)) : Gray :=
  ⟨g.h, g.w, fun y x =>
    (ker.filterMap fun d =>
      let yy := (y : Int) + d.1
      let xx := (x : Int) + d.2
      if 0 ≤ yy ∧ yy < (g.h : Int) ∧ 0 ≤ xx ∧ xx < (g.w : Int) then
        some (g.px yy.toNat xx.toNat)
      else none).foldl min 255⟩

/-- `cv2.morphologyEx(..., cv2.MORPH_CLOSE, kernel)`: dilation followed
by erosion. -/
def morphCloseK (g : Gray) (ker : List (Int × Int)) : Gray :=
  erodeK (dilateK g ker) ker

/-- Offsets of a `kh × kw` rectangular structuring element with OpenCV's
default anchor `(kh/2, kw/2)`. -/
def rectOffsets (kh kw : Nat) : List (Int × Int) :=
  ((List.range kh).map fun i =>
    (List.range kw).map fun j =>
      ((i : Int) - (kh : Int)/2, (j : Int) - (kw : Int)/2)).flatten

/-- `cv2.getStructuringElement(cv2.MORPH_ELLIPSE, (5, 5))` as anchored
offsets (center column in the first and last rows, full middle rows). -/
def ellipse5Offsets : List (Int × Int) :=
  [(-2, 0),
   (-1, -2), (-1, -1), (-1, 0), (-1, 1), (-1, 2),
   (0, -2), (0, -1), (0, 0), (0, 1), (0, 2),
   (1, -2), (1, -1), (1, 0), (1, 1), (1, 2),
   (2, 0)]

/-- `cv2.getStructuringElement(cv2.MORPH_ELLIPSE, (3, 3))`: the 3×3
cross. -/
def ellipse3Offsets : List (Int × Int) :=
  [(-1, 0), (0, -1), (0, 0), (0, 1), (1, 0)]

/-- `cv2.threshold(src, t, maxval, cv2.THRESH_BINARY)`:
`maxval` where `src > t`, else 0. -/
def thresholdBinary (g : Gray) (t : ℚ) (maxval : Nat) : Gray :=
  ⟨g.h, g.w, fun y x => if t < ((g.px y x : Nat) : ℚ) then maxval else 0⟩

/-- `cv2.threshold(src, t, maxval, cv2.THRESH_BINARY_INV)`:
0 where `src > t`, else `maxval`. -/
def thresholdBinaryInv (g : Gray) (t : ℚ) (maxval : Nat) : Gray :=
  ⟨g.h, g.w, fun y x => if t < ((g.px y x : Nat) : ℚ) then 0 else maxval⟩

/-- `cv2.calcHist` over a single 8-bit channel: the count of pixels with
value `v`. -/
def calcHist (g : Gray) (v : Nat) : Nat :=
  ∑ y in Finset.range g.h, ∑ x in Finset.range g.w,
    if g.px y x = v then 1 else 0

/-- Loop state of OpenCV's `getThreshVal_Otsu_8u`. -/
structure OtsuState where
  mu1 : ℚ
  q1 : ℚ
  maxSigma : ℚ
  maxVal : ℚ

/-- Single-precision machine epsilon, the guard constant of OpenCV's
Otsu loop. -/
def FLT_EPSILON : ℚ := 1 / 2 ^ 23

/-- One iteration of OpenCV's Otsu loop (`getThreshVal_Otsu_8u`): the
running first-class mean is multiplied by the old `q1` before the class
masses are updated; iterations with a degenerate class split only carry
that update forward. -/
def otsuStep (hist : Nat → Nat) (scale mu : ℚ) (s : OtsuState) (i : Nat) :
    OtsuState :=
  let p_i : ℚ := (hist i : ℚ) * scale
  let mu1w := s.mu1 * s.q1
  let q1 := s.q1 + p_i
  let q2 := 1 - q1
  if min q1 q2 < FLT_EPSILON ∨ 1 - FLT_EPSILON < max q1 q2 then
    ⟨mu1w, q1, s.maxSigma, s.maxVal⟩
  else
    let mu1 := (mu1w + (i : ℚ) * p_i) / q1
    let mu2 := (mu - q1 * mu1) / q2
    let sigma := q1 * q2 * (mu1 - mu2) * (mu1 - mu2)
    if s.maxSigma < sigma then ⟨mu1, q1, sigma, (i : ℚ)⟩
    else ⟨mu1, q1, s.maxSigma, s.maxVal⟩

/-- The full Otsu loop: 256 iterations from the zero state. -/
def otsuRun (hist : Nat → Nat) (scale mu : ℚ) : OtsuState :=
  (List.range 256).foldl (otsuStep hist scale mu) ⟨0, 0, 0, 0⟩

/-- The returned maximizer of the loop state. -/
def otsuMaxVal (s : OtsuState) : ℚ := s.maxVal

/-- OpenCV's Otsu threshold over a 256-bin histogram: the loop is run
with `scale = 1/total` and the global mean `mu = scale * Σ i·h(i)`
(written inline), and its maximizer is returned. -/
def otsuThreshold (hist : Nat → Nat) : ℚ :=
  otsuMaxVal (otsuRun hist (1 / ∑ i in Finset.range 256, (hist i : ℚ))
    ((1 / ∑ i in Finset.range 256, (hist i : ℚ)) *
      ∑ i in Finset.range 256, (i : ℚ) * (hist i : ℚ)))

/-- The Otsu threshold of an image (what `cv2.threshold` computes when
`cv2.THRESH_OTSU` is set, ignoring the passed threshold). -/
def otsuValue (g : Gray) : ℚ := otsuThreshold (calcHist g)

/-- `cv2.bitwise_or` on single-channel masks: pointwise bitwise OR. -/
def bitwise_or_mask (a b : Gray) : Gray :=
  ⟨a.h, a.w, fun y x => Nat.lor (a.px y x) (b.px y x)⟩

/-- `cv2.bitwise_not` on a uint8 mask: `255 - v`. -/
def bitwise_not_mask (a : Gray) : Gray :=
  ⟨a.h, a.w, fun y x => 255 - a.px y x⟩

/-! ## Contours and the external-algorithm oracle -/

/-- A contour: the polygon of vertex coordinates (x, y) that
`cv2.findContours` returns. -/
abbrev Contour := List (Int × Int)

/-- Twice the signed polygon area (shoelace formula over the closed
vertex cycle). -/
def shoelace2 (c : Contour) : Int :=
  ((c.zip (c.drop 1 ++ c.take 1)).map fun pq =>
    pq.1.1 * pq.2.2 - pq.2.1 * pq.1.2).sum

/-- Models `cv2.contourArea`: the absolute polygon area computed by
Green's formula over the vertices. -/
def contourArea (c : Contour) : ℚ := ((shoelace2 c).natAbs : ℚ) / 2

/-- Does the horizontal ray leftward from (x, y) cross the edge p→q?
(Exact integer form of the even–odd crossing test.) -/
def crossesRay (p q : Int × Int) (x y : Int) : Bool :=
  if p.2 ≤ y ∧ y < q.2 then
    decide ((q.2 - p.2) * x < p.1 * (q.2 - p.2) + (y - p.2) * (q.1 - p.1))
  else if q.2 ≤ y ∧ y < p.2 then
    decide (p.1 * (q.2 - p.2) + (y - p.2) * (q.1 - p.1) < (q.2 - p.2) * x)
  else false

/-- Even–odd membership of the point (x, y) in the polygon `c`. Models
the region filled by `cv2.drawContours(..., thickness=-1)`; the exact
treatment of boundary pixels by OpenCV's rasterizer is not depended on
by any theorem in this file. -/
def pointInPoly (c : Contour) (x y : Int) : Bool :=
  (c.zip (c.drop 1 ++ c.take 1)).foldl
    (fun acc e => if crossesRay e.1 e.2 x y then !acc else acc) false

/-- `cv2.drawContours(base, [c], -1/0, 255, -1)`: fill the contour's
region with 255 on top of `base`. -/
def drawContourFill (base : Gray) (c : Contour) : Gray :=
  ⟨base.h, base.w, fun y x =>
    if pointInPoly c (x : Int) (y : Int) then 255 else base.px y x⟩

/-- The two OpenCV routines whose algorithms live outside this
repository are passed in as an oracle: `cv2.findContours(mask,
cv2.RETR_EXTERNAL, cv2.CHAIN_APPROX_SIMPLE)` (the returned contour
list) and `cv2.grabCut` (the per-pixel class map 0..3 it writes, seeded
as in `_remove_with_grabcut`). Every theorem quantifying over `CV2Ext`
holds for arbitrary behavior of these externals. -/
structure CV2Ext where
  findContours : Gray → List Contour
  grabCutClasses : Grid BGR → Gray

/-! ## Background-removal strategies
(src/src/models/background_remover.py) -/

/-- Embeds `BackgroundRemover._contour_detection_method`
(background_remover.py:149-180): grayscale, Gaussian blur 5×5, Canny
30/150, two dilations with the default 3×3 element, then fill the
external contours of area above 50 into a fresh mask. -/
def contour_detection_method (ext : CV2Ext) (image : Grid BGR) : Gray :=
  let gray := cvtColor_BGR2GRAY image
  let blurred := gaussianBlur gray 5 0
  let edges := canny blurred 30 150
  let dilated := dilateK (dilateK edges (rectOffsets 3 3)) (rectOffsets 3 3)
  let contours := ext.findContours dilated
  (contours.filter fun c => 50 < contourArea c).foldl drawContourFill
    (Grid.const gray.h gray.w 0)

/-- Embeds `BackgroundRemover._threshold_method`
(background_remover.py:182-201): grayscale, Gaussian blur 5×5, Otsu
binary-inverse threshold. -/
def threshold_method (image : Grid BGR) : Gray :=
  let gray := cvtColor_BGR2GRAY image
  let blurred := gaussianBlur gray 5 0
  thresholdBinaryInv blurred (otsuValue blurred) 255

/-- Embeds `BackgroundRemover._combine_masks`
(background_remover.py:203-216): pointwise bitwise OR of the two
masks. -/
def combine_masks (mask1 mask2 : Gray) : Gray :=
  bitwise_or_mask mask1 mask2

/-- Embeds `BackgroundRemover._apply_morphological_operations`
(background_remover.py:218-235): morphological close with the 5×5
elliptical element. -/
def apply_morphological_operations (mask : Gray) : Gray :=
  morphCloseK mask ellipse5Offsets

/-- Embeds `BackgroundRemover._refine_contours`
(background_remover.py:237-258): re-extract external contours, keep
those of area strictly above 100, redraw them filled into a fresh
zero mask. -/
def refine_contours (ext : CV2Ext) (mask : Gray) : Gray :=
  let contours := ext.findContours mask
  (contours.filter fun c => 100 < contourArea c).foldl drawContourFill
    (Grid.const mask.h mask.w 0)

/-- Embeds `BackgroundRemover._final_cleanup`
(background_remover.py:260-279): a 3×3 elliptical close, then every
external contour of the closed mask is redrawn filled in place. -/
def final_cleanup (ext : CV2Ext) (mask : Gray) : Gray :=
  let cleaned := morphCloseK mask ellipse3Offsets
  (ext.findContours cleaned).foldl drawContourFill cleaned

/-- Embeds `BackgroundRemover._apply_transparency`
(background_remover.py:281-298): BGR→BGRA with the mask as alpha. -/
def apply_transparency (image : Grid BGR) (mask : Gray) : Grid BGRA :=
  ⟨image.h, image.w, fun y x =>
    let p := image.px y x
    ⟨p.b, p.g, p.r, mask.px y x⟩⟩

/-- Embeds `BackgroundRemover._remove_with_combined_pipeline`
(background_remover.py:100-147): the seven-stage pipeline. -/
def remove_with_combined_pipeline (ext : CV2Ext) (image : Grid BGR) :
    Grid BGRA :=
  let contour_mask := contour_detection_method ext image
  let threshold_mask := threshold_method image
  let combined_mask := combine_masks contour_mask threshold_mask
  let morphed_mask := apply_morphological_operations combined_mask
  let refined_mask := refine_contours ext morphed_mask
  let cleaned_mask := final_cleanup ext refined_mask
  apply_transparency image cleaned_mask

/-- Embeds `BackgroundRemover._remove_with_contour_detection`
(background_remover.py:300-321): the contour mask, a 3×3 rectangular
close with two iterations (OpenCV applies both dilations, then both
erosions), then transparency. -/
def remove_with_contour_detection (ext : CV2Ext) (image : Grid BGR) :
    Grid BGRA :=
  let mask := contour_detection_method ext image
  let k := rectOffsets 3 3
  let mask2 := erodeK (erodeK (dilateK (dilateK mask k) k) k) k
  apply_transparency image mask2

/-- Embeds `BackgroundRemover._remove_with_threshold`
(background_remover.py:323-340). -/
def remove_with_threshold (image : Grid BGR) : Grid BGRA :=
  apply_transparency image (threshold_method image)

/-- The S and V components of `cv2.cvtColor(..., cv2.COLOR_BGR2HSV)` for
one pixel: `V = max(B,G,R)`, `S = round(255*(V-min)/V)` (0 when V = 0).
The hue component always lies in 0..179 and the chroma-key bounds on hue
are 0..180, so hue never constrains `cv2.inRange` here and is not
modelled. -/
def hsvSV (p : BGR) : Nat × Nat :=
  let v := max p.b (max p.g p.r)
  let mn := min p.b (min p.g p.r)
  let s := if v = 0 then 0 else (255 * (v - mn) + v / 2) / v
  (s, v)

/-- `cv2.inRange(hsv, (0, 0, 200), (180, 30, 255))` for one pixel. -/
def inRangeWhiteHSV (p : BGR) : Bool :=
  decide ((hsvSV p).1 ≤ 30 ∧ 200 ≤ (hsvSV p).2)

/-- Embeds `BackgroundRemover._remove_with_chroma_key`
(background_remover.py:342-371): HSV near-white range mask, inverted,
then a 3×3 morphological open (erosion then dilation). -/
def remove_with_chroma_key (image : Grid BGR) : Grid BGRA :=
  let mask0 : Gray :=
    ⟨image.h, image.w, fun y x =>
      if inRangeWhiteHSV (image.px y x) then 255 else 0⟩
  let mask1 := bitwise_not_mask mask0
  let k := rectOffsets 3 3
  let mask2 := dilateK (erodeK mask1 k) k
  apply_transparency image mask2

/-- Embeds `BackgroundRemover._remove_with_grabcut`
(background_remover.py:373-404): `cv2.grabCut` (external, oracle) seeded
with the rectangle (10, 10, w-20, h-20) and 5 iterations writes a class
map; classes 0 and 2 (background / probable background) become 0, the
rest 255, then transparency. -/
def remove_with_grabcut (ext : CV2Ext) (image : Grid BGR) : Grid BGRA :=
  let classes := ext.grabCutClasses image
  let mask : Gray :=
    ⟨image.h, image.w, fun y x =>
      if classes.px y x = 2 ∨ classes.px y x = 0 then 0 else 255⟩
  apply_transparency image mask

/-- The body of the `try` block of `BackgroundRemover.remove_background`
(background_remover.py:68-93): gate on white-background detection, then
dispatch on the method. The source's trailing `else` (invalid method
value) is unreachable once the method is typed by the enum. -/
def remove_background_try (ext : CV2Ext) (method : RemovalMethod)
    (image : Grid BGR) : Except PyErr (Grid BGRA) := do
  let has_white_bg ← detect_white_background image
  if ¬ has_white_bg then
    return add_alpha_channel image
  else
    match method with
    | .combined => return remove_with_combined_pipeline ext image
    | .contour_detection => return remove_with_contour_detection ext image
    | .threshold => return remove_with_threshold image
    | .chroma_key => return remove_with_chroma_key image
    | .grabcut => return remove_with_grabcut ext image

/-- Embeds `BackgroundRemover.remove_background`
(background_remover.py:57-98): the `try/except` boundary that converts
any exception into the opaque passthrough `_add_alpha_channel(image)`.
Total by construction — no exception escapes. -/
def remove_background (ext : CV2Ext) (method : RemovalMethod)
    (image : Grid BGR) : Grid BGRA :=
  match remove_background_try ext method image with
  | .ok result => result
  | .error _ => add_alpha_channel image

/-- An oracle with trivial externals, used for concrete evaluations. -/
def extNone : CV2Ext :=
  ⟨fun _ => [], fun g => Grid.const g.h g.w 0⟩

/-- C3. For every contour/grabcut oracle, every removal method and every
(BGR) input image, if the guarded body of `remove_background` raises,
the boundary catches it and returns the original image with alpha 255
everywhere and the color channels unchanged. (`remove_background` is a
total function of type `Grid BGR → Grid BGRA`: by construction no
exception propagates to its caller.) -/
theorem remove_background_catches_to_passthrough
    (ext : CV2Ext) (method : RemovalMethod) (image : Grid BGR) (e : PyErr)
    (herr : remove_background_try ext method image = .error e) :
    remove_background ext method image = add_alpha_channel image ∧
    ∀ y x, y < image.h → x < image.w →
      (remove_background ext method image).px y x =
        ⟨(image.px y x).b, (image.px y x).g, (image.px y x).r, 255⟩ := by
  have hres : remove_background ext method image = add_alpha_channel image := by
    unfold remove_background
    rw [herr]
  exact ⟨hres, by intro y x _ _; rw [hres]; rfl⟩

/-- C3, witness: on the empty 0×0 image the NumPy border indexing inside
`detect_white_background` raises, and `remove_background` returns the
opaque passthrough. -/
theorem remove_background_catches_to_passthrough_witness :
    remove_background extNone .combined (Grid.const 0 0 ⟨0, 0, 0⟩) =
      add_alpha_channel (Grid.const 0 0 ⟨0, 0, 0⟩) ∧
    ∀ y x, y < (Grid.const 0 0 (⟨0, 0, 0⟩ : BGR)).h →
      x < (Grid.const 0 0 (⟨0, 0, 0⟩ : BGR)).w →
      (remove_background extNone .combined (Grid.const 0 0 ⟨0, 0, 0⟩)).px y x =
        ⟨((Grid.const 0 0 (⟨0, 0, 0⟩ : BGR)).px y x).b,
         ((Grid.const 0 0 (⟨0, 0, 0⟩ : BGR)).px y x).g,
         ((Grid.const 0 0 (⟨0, 0, 0⟩ : BGR)).px y x).r, 255⟩ :=
  remove_background_catches_to_passthrough extNone .combined
    (Grid.const 0 0 ⟨0, 0, 0⟩) .indexError rfl

/-- C5. For every oracle, every method and every BGR image of height and
width at least 2 (so that the border sample is exactly the claim's
border set, each pixel once), if the fraction of border grayscale values
at or above 240 is strictly below 0.9, then `remove_background` returns
the image unchanged in color with alpha 255 everywhere — the result is
the passthrough `add_alpha_channel image`, independent of the oracle, so
no mask generation takes place. -/
theorem remove_background_gate_passthrough
    (ext : CV2Ext) (method : RemovalMethod) (image : Grid BGR)
    (hh : 2 ≤ image.h) (hw : 2 ≤ image.w)
    (hfrac : borderWhiteFraction image < 9/10) :
    remove_background ext method image = add_alpha_channel image ∧
    ∀ y x, y < image.h → x < image.w →
      (remove_background ext method image).px y x =
        ⟨(image.px y x).b, (image.px y x).g, (image.px y x).r, 255⟩ := by
  have h0 : ¬ (image.h = 0 ∨ image.w = 0) := by omega
  have hdet : detect_white_background image = .ok false := by
    unfold detect_white_background
    rw [if_neg h0]
    congr 1
    exact decide_eq_false (not_le.mpr hfrac)
  have hres : remove_background ext method image = add_alpha_channel image := by
    unfold remove_background remove_background_try
    rw [hdet]
    rfl
  exact ⟨hres, by intro y x _ _; rw [hres]; rfl⟩

/-- The border sample of the 2×2 all-black image. -/
theorem borderPixels_black2 :
    borderPixels (cvtColor_BGR2GRAY (Grid.const 2 2 ⟨0, 0, 0⟩)) =
      [0, 0, 0, 0] := by rfl

/-- The border white fraction of the 2×2 all-black image is 0. -/
theorem borderWhiteFraction_black2 :
    borderWhiteFraction (Grid.const 2 2 ⟨0, 0, 0⟩) < 9/10 := by
  unfold borderWhiteFraction
  rw [borderPixels_black2]
  norm_num [List.filter]

/-- C5, witness: a 2×2 all-black image has border white fraction 0 and
passes through opaque. -/
theorem remove_background_gate_passthrough_witness :
    remove_background extNone .combined (Grid.const 2 2 ⟨0, 0, 0⟩) =
      add_alpha_channel (Grid.const 2 2 ⟨0, 0, 0⟩) ∧
    ∀ y x, y < (Grid.const 2 2 (⟨0, 0, 0⟩ : BGR)).h →
      x < (Grid.const 2 2 (⟨0, 0, 0⟩ : BGR)).w →
      (remove_background extNone .combined (Grid.const 2 2 ⟨0, 0, 0⟩)).px y x =
        ⟨((Grid.const 2 2 (⟨0, 0, 0⟩ : BGR)).px y x).b,
         ((Grid.const 2 2 (⟨0, 0, 0⟩ : BGR)).px y x).g,
         ((Grid.const 2 2 (⟨0, 0, 0⟩ : BGR)).px y x).r, 255⟩ :=
  remove_background_gate_passthrough extNone .combined
    (Grid.const 2 2 ⟨0, 0, 0⟩) (by decide) (by decide) borderWhiteFraction_black2

/-! ## C8 — mask combination and contour refinement -/

/-- Bitwise OR of naturals is zero exactly when both are. -/
theorem lor_eq_zero_iff (a b : Nat) : Nat.lor a b = 0 ↔ a = 0 ∧ b = 0 := by
  have hcast : Nat.lor a b = a ||| b := rfl
  rw [hcast]
  constructor
  · intro h
    constructor
    · by_contra ha
      obtain ⟨i, hi⟩ := Nat.ne_zero_implies_bit_true ha
      have hbit : (a ||| b).testBit i = true := by
        rw [Nat.testBit_lor, hi]; rfl
      rw [h] at hbit
      simp [Nat.zero_testBit] at hbit
    · by_contra hb
      obtain ⟨i, hi⟩ := Nat.ne_zero_implies_bit_true hb
      have hbit : (a ||| b).testBit i = true := by
        rw [Nat.testBit_lor, hi, Bool.or_true]
      rw [h] at hbit
      simp [Nat.zero_testBit] at hbit
  · rintro ⟨rfl, rfl⟩; rfl

/-- Filling a contour list over a base mask marks exactly the pixels
inside some contour of the list. -/
theorem foldl_drawContourFill_px (cs : List Contour) (base : Gray)
    (y x : Nat) :
    (cs.foldl drawContourFill base).px y x =
      if cs.any (fun c => pointInPoly c (x : Int) (y : Int)) then 255
      else base.px y x := by
  induction cs generalizing base with
  | nil => simp
  | cons c cs ih =>
    simp only [List.foldl_cons, List.any_cons, ih, drawContourFill]
    by_cases hc : pointInPoly c (x : Int) (y : Int) = true <;>
      by_cases hcs : (cs.any fun d => pointInPoly d (x : Int) (y : Int)) = true <;>
        simp [hc, hcs]

/-- The contour of an 11×11 filled square: `cv2.findContours` traces its
outer border as the 10×10 vertex square, whose `cv2.contourArea` is
exactly 100. -/
def squareContour100 : Contour := [(0, 0), (10, 0), (10, 10), (0, 10)]

/-- An oracle whose contour extraction returns exactly
`squareContour100`. -/
def extSquare100 : CV2Ext :=
  ⟨fun _ => [squareContour100], fun g => Grid.const g.h g.w 0⟩

/-- C8, counterexample. The claim says contour refinement keeps exactly
the external contours of area at least 100 px². A contour of area
exactly 100 (the outer border of an 11×11 filled square) is discarded by
the code's strict `> 100` comparison: the refined mask is 0 even at a
pixel inside that contour. -/
theorem refine_contours_drops_area_exactly_100 :
    contourArea squareContour100 = 100 ∧
    pointInPoly squareContour100 5 5 = true ∧
    (refine_contours extSquare100 (Grid.const 20 20 255)).px 5 5 = 0 := by
  refine ⟨by norm_num [contourArea, squareContour100, shoelace2], by decide, ?_⟩
  have harea : ¬ ((100 : ℚ) < contourArea squareContour100) := by
    norm_num [contourArea, squareContour100, shoelace2]
  show (([squareContour100].filter fun c => 100 < contourArea c).foldl
    drawContourFill (Grid.const 20 20 0)).px 5 5 = 0
  simp [List.filter, decide_eq_false harea, Grid.const]

/-- C8, amended. The combination stage is the pointwise bitwise OR — a
pixel of the combined mask is nonzero iff at least one of the two masks
is nonzero there — and the contour-refinement stage keeps exactly the
external contours whose area is strictly greater than 100 px², redrawn
filled into a fresh clean mask: a refined pixel is nonzero iff it lies
inside some extracted contour of area strictly above 100. -/
theorem combine_or_and_refine_strict
    : (∀ m1 m2 : Gray, combine_masks m1 m2 = bitwise_or_mask m1 m2) ∧
      (∀ (m1 m2 : Gray) (y x : Nat),
        (combine_masks m1 m2).px y x ≠ 0 ↔
          m1.px y x ≠ 0 ∨ m2.px y x ≠ 0) ∧
      (∀ (ext : CV2Ext) (mask : Gray) (y x : Nat),
        (refine_contours ext mask).px y x ≠ 0 ↔
          ∃ c ∈ ext.findContours mask,
            100 < contourArea c ∧
            pointInPoly c (x : Int) (y : Int) = true) := by
  refine ⟨fun _ _ => rfl, ?_, ?_⟩
  · intro m1 m2 y x
    show ¬ Nat.lor (m1.px y x) (m2.px y x) = 0 ↔ _
    rw [lor_eq_zero_iff]
    tauto
  · intro ext mask y x
    show ¬ (((ext.findContours mask).filter
      (fun c => 100 < contourArea c)).foldl drawContourFill
        (Grid.const mask.h mask.w 0)).px y x = 0 ↔ _
    rw [foldl_drawContourFill_px]
    by_cases hany : ((ext.findContours mask).filter
        (fun c => 100 < contourArea c)).any
        (fun c => pointInPoly c (x : Int) (y : Int)) = true
    · rw [if_pos hany]
      simp only [List.any_eq_true, List.mem_filter, decide_eq_true_eq] at hany
      obtain ⟨c, ⟨hmem, harea⟩, hin⟩ := hany
      exact ⟨fun _ => ⟨c, hmem, harea, hin⟩, fun _ => by simp⟩
    · rw [if_neg hany]
      constructor
      · intro h; exact absurd rfl h
      · rintro ⟨c, hmem, harea, hin⟩
        exfalso
        apply hany
        simp only [List.any_eq_true, List.mem_filter, decide_eq_true_eq]
        exact ⟨c, ⟨hmem, harea⟩, hin⟩

/-! ## PIL image model
(for src/src/models/image_processor.py and push_processor.py) -/

/-- PIL image modes occurring in the embedded pipelines. -/
inductive PILMode where
  | RGB
  | RGBA
  deriving DecidableEq, Repr

/-- A PIL image: mode, dimensions and pixel function (RGBA-valued; an
RGB-mode image carries an unused alpha field). PIL sizes are (w, h);
the structure stores both explicitly. -/
structure PILImage where
  mode : PILMode
  h : Nat
  w : Nat
  px : Nat → Nat → RGBA

/-- `img.convert('RGBA')`: an RGB image gains alpha 255, an RGBA image
is unchanged. -/
def PILImage.convertRGBA (img : PILImage) : PILImage :=
  if img.mode = .RGBA then img
  else ⟨.RGBA, img.h, img.w, fun y x =>
    let p := img.px y x
    ⟨p.r, p.g, p.b, 255⟩⟩

/-- Rational surrogate for PIL's resampling kernels (Lanczos support 3 /
box): the hat function of support 3, positive on the open support like
the windowed sinc. PIL normalizes every coefficient window to total mass
1 before use, and only that normalization (plus the window geometry,
embedded exactly below) is depended on by the theorems in this file. -/
def resampleKernelQ (x : ℚ) : ℚ := max 0 (3 - |x|)

/-- PIL's resampling geometry: scale factor between source and
destination extents. -/
def rsScale (srcSize dstSize : Nat) : ℚ := (srcSize : ℚ) / (dstSize : ℚ)

/-- Filter scale: 1 when enlarging, the decimation factor when
shrinking. -/
def rsFScale (srcSize dstSize : Nat) : ℚ := max 1 (rsScale srcSize dstSize)

/-- Filter support radius in source pixels (Lanczos support 3). -/
def rsSupport (srcSize dstSize : Nat) : ℚ := 3 * rsFScale srcSize dstSize

/-- Source-space center of one output position. -/
def rsCenter (srcSize dstSize xx : Nat) : ℚ :=
  ((xx : ℚ) + 1/2) * rsScale srcSize dstSize

/-- First source index of the coefficient window (clipped at 0). -/
def windowLo (srcSize dstSize xx : Nat) : Nat :=
  (max 0 ⌊rsCenter srcSize dstSize xx - rsSupport srcSize dstSize + 1/2⌋).toNat

/-- One-past-last source index of the coefficient window (clipped at the
source extent). -/
def windowHi (srcSize dstSize xx : Nat) : Nat :=
  min srcSize (⌊rsCenter srcSize dstSize xx + rsSupport srcSize dstSize + 1/2⌋).toNat

/-- The coefficient window PIL precomputes for one output position:
center `(xx + 0.5) * scale`, support `3 * max(1, scale)`, window clipped
to the source extent; each tap's raw weight is the kernel sampled at the
tap's distance from the center in filter-scale units. -/
def resampleWindow (srcSize dstSize xx : Nat) : List (Nat × ℚ) :=
  (List.range (windowHi srcSize dstSize xx - windowLo srcSize dstSize xx)).map
    fun k =>
      (windowLo srcSize dstSize xx + k,
       resampleKernelQ
         ((((windowLo srcSize dstSize xx + k : Nat) : ℚ) + 1/2 -
            rsCenter srcSize dstSize xx) / rsFScale srcSize dstSize))

/-- One resampled output sample: normalized weighted sum over the
window. -/
def resample1D (srcSize dstSize xx : Nat) (f : Nat → ℚ) : ℚ :=
  (((resampleWindow srcSize dstSize xx).map fun p => p.2 * f p.1).sum) /
  (((resampleWindow srcSize dstSize xx).map fun p => p.2).sum)

/-- Horizontal resampling pass over one channel. -/
def resampleH (g : Gray) (dstW : Nat) : Gray :=
  ⟨g.h, dstW, fun y x =>
    clip8 (resample1D g.w dstW x fun ss => ((g.px y ss : Nat) : ℚ))⟩

/-- Vertical resampling pass over one channel. -/
def resampleV (g : Gray) (dstH : Nat) : Gray :=
  ⟨dstH, g.w, fun y x =>
    clip8 (resample1D g.h dstH y fun ss => ((g.px ss x : Nat) : ℚ))⟩

/-- Extract one channel of a PIL image as a grid. -/
def chanGrid (img : PILImage) (f : RGBA → Nat) : Gray :=
  ⟨img.h, img.w, fun y x => f (img.px y x)⟩

/-- Models `img.resize((w, h), filter)`: separable two-pass resampling
of each band independently (PIL resamples RGBA bands separately). -/
def PILImage.resize (img : PILImage) (size : Nat × Nat) : PILImage :=
  let rband := fun (f : RGBA → Nat) =>
    resampleV (resampleH (chanGrid img f) size.1) size.2
  let rr := rband (·.r)
  let gg := rband (·.g)
  let bb := rband (·.b)
  let aa := rband (·.a)
  ⟨img.mode, size.2, size.1, fun y x =>
    ⟨rr.px y x, gg.px y x, bb.px y x, aa.px y x⟩⟩

/-- PIL's fixed-point byte blend `a*b/255` with rounding. -/
def muldiv255 (a b : Nat) : Nat := (a * b + 127) / 255

/-- `Image.new(mode, (w, h), color)`. -/
def PILImage.new (mode : PILMode) (w h : Nat) (color : RGBA) : PILImage :=
  ⟨mode, h, w, fun _ _ => color⟩

/-- `canvas.paste(img, (left, top), img)`: the pasted image is its own
alpha mask; inside the pasted extent each band is alpha-blended, outside
it the canvas is unchanged. Canvas dimensions and mode are never
affected. -/
def PILImage.paste (canvas img : PILImage) (left top : Int) : PILImage :=
  ⟨canvas.mode, canvas.h, canvas.w, fun y x =>
    let iy : Int := (y : Int) - top
    let ix : Int := (x : Int) - left
    if 0 ≤ iy ∧ iy < (img.h : Int) ∧ 0 ≤ ix ∧ ix < (img.w : Int) then
      let s := img.px iy.toNat ix.toNat
      let d := canvas.px y x
      ⟨muldiv255 d.r (255 - s.a) + muldiv255 s.r s.a,
       muldiv255 d.g (255 - s.a) + muldiv255 s.g s.a,
       muldiv255 d.b (255 - s.a) + muldiv255 s.b s.a,
       muldiv255 d.a (255 - s.a) + muldiv255 s.a s.a⟩
    else canvas.px y x⟩

/-- Dimension bounds of base.py / image_processor.py. -/
def DIMENSION_MIN : Nat := 90

/-- Maximum allowed dimension. -/
def DIMENSION_MAX : Nat := 5000

/-- Embeds `ImageProcessor.validate_dimensions`
(image_processor.py:111-120). -/
def validate_dimensions (img : PILImage) : Except PyErr Unit :=
  if img.w < DIMENSION_MIN ∨ img.h < DIMENSION_MIN then
    Except.error (.valueError "Image too small")
  else if DIMENSION_MAX < img.w ∨ DIMENSION_MAX < img.h then
    Except.error (.valueError "Image too large")
  else Except.ok ()

/-- Embeds the pixel pipeline of `ImageProcessor.process_image`
(image_processor.py:139-184) from `Image.open` onward: dimension
validation, RGBA conversion, `calculate_dimensions`, the progressive
two-step downscale when the new size falls below half the source,
resize, fresh RGBA canvas of exactly the requested size, centered
alpha-masked paste. File-system validation (`validate_file`) and PNG
encoding act outside the pixel model; the image argument is the opened
file. -/
def process_image (img0 : PILImage) (width height : Nat) (bg_color : RGBA) :
    Except PyErr PILImage := do
  validate_dimensions img0
  let img := img0.convertRGBA
  let new_size := calculate_dimensions (img.w, img.h) (width, height)
  let img2 :=
    if (new_size.1 : ℚ) < (img.w : ℚ) * (1/2) ∨
       (new_size.2 : ℚ) < (img.h : ℚ) * (1/2) then
      img.resize ((⌊(img.w : ℚ) * (707/1000)⌋).toNat,
                  (⌊(img.h : ℚ) * (707/1000)⌋).toNat)
    else img
  let resized := img2.resize new_size
  let final := PILImage.new .RGBA width height bg_color
  let left : Int := Int.fdiv ((width : Int) - (new_size.1 : Int)) 2
  let top : Int := Int.fdiv ((height : Int) - (new_size.2 : Int)) 2
  return final.paste resized left top

/-! ## Format catalog -/

/-- One catalog entry: target size, background RGBA, encode quality. -/
structure FormatCfg where
  width : Nat
  height : Nat
  bg_color : RGBA
  quality : Nat
  deriving DecidableEq, Repr

/-- Embeds `FORMAT_CONFIGS` of src/src/config/formats.py (the full
catalog of eight formats). -/
def formatCatalog : List (String × FormatCfg) :=
  [("APPICON", ⟨1024, 1024, ⟨0, 0, 0, 0⟩, 95⟩),
   ("DEFAULT", ⟨1242, 1902, ⟨255, 255, 255, 255⟩, 95⟩),
   ("DEFAULT_LG", ⟨1242, 2208, ⟨255, 255, 255, 255⟩, 95⟩),
   ("DEFAULT_XL", ⟨1242, 2688, ⟨255, 255, 255, 255⟩, 95⟩),
   ("FEATURE_GRAPHIC", ⟨1024, 500, ⟨255, 255, 255, 255⟩, 95⟩),
   ("LOGO", ⟨1024, 1024, ⟨0, 0, 0, 0⟩, 95⟩),
   ("LOGO_WIDE", ⟨1024, 500, ⟨0, 0, 0, 0⟩, 95⟩),
   ("PUSH", ⟨96, 96, ⟨255, 255, 255, 0⟩, 95⟩)]

/-- Embeds `BaseImageProcessor.FORMAT_CONFIGS` of src/src/models/base.py:
seven formats — PUSH is present, LOGO_WIDE is absent. This is the table
`ImageProcessingService` reads (`self.formats`). -/
def baseFormatConfigs : List (String × FormatCfg) :=
  [("APPICON", ⟨1024, 1024, ⟨0, 0, 0, 0⟩, 95⟩),
   ("DEFAULT", ⟨1242, 1902, ⟨255, 255, 255, 255⟩, 95⟩),
   ("DEFAULT_LG", ⟨1242, 2208, ⟨255, 255, 255, 255⟩, 95⟩),
   ("DEFAULT_XL", ⟨1242, 2688, ⟨255, 255, 255, 255⟩, 95⟩),
   ("FEATURE_GRAPHIC", ⟨1024, 500, ⟨255, 255, 255, 255⟩, 95⟩),
   ("LOGO", ⟨1024, 1024, ⟨0, 0, 0, 0⟩, 95⟩),
   ("PUSH", ⟨96, 96, ⟨255, 255, 255, 0⟩, 95⟩)]

/-- Python `dict[name]`: the value, or `KeyError` when absent. -/
def lookupFormat (tbl : List (String × FormatCfg)) (name : String) :
    Except PyErr FormatCfg :=
  match tbl.find? (fun p => p.1 = name) with
  | some p => Except.ok p.2
  | none => Except.error (.keyError name)

/-! ## Push notification processor
(src/src/models/push_processor.py) -/

/-- Grayscale of a PIL RGBA image: `cv2.cvtColor(..., COLOR_RGBA2RGB)`
followed by `cv2.cvtColor(..., COLOR_RGB2GRAY)` (BT.601 fixed point). -/
def grayOfPIL (img : PILImage) : Gray :=
  ⟨img.h, img.w, fun y x => rgbaToGray (img.px y x)⟩

/-- Embeds `PushProcessor.calculate_contrast` (push_processor.py:141-146)
squared: `sqrt(sum(hist_norm * (arange(256) - hist_norm.mean())**2))` is
compared by the caller against 0.5; the embedding computes the radicand
and the caller compares against 0.25, which is equivalent because both
sides are nonnegative. -/
def calculate_contrast_sq (img : PILImage) : ℚ :=
  let g := grayOfPIL img
  let total : ℚ := ∑ i in Finset.range 256, ((calcHist g i : Nat) : ℚ)
  let histNorm : Nat → ℚ := fun i => ((calcHist g i : Nat) : ℚ) / total
  let mean : ℚ := (∑ i in Finset.range 256, histNorm i) / 256
  ∑ i in Finset.range 256, histNorm i * ((i : ℚ) - mean) ^ 2

/-- `img_array[:, :, 3]` when the array has 4 channels, else a
constant-255 plane (push_processor.py:155). -/
def alphaOfPIL (img : PILImage) : Gray :=
  if img.mode = .RGBA then ⟨img.h, img.w, fun y x => (img.px y x).a⟩
  else Grid.const img.h img.w 255

/-- Embeds `PushProcessor.create_coloring_book_effect`
(push_processor.py:148-205): contrast-adaptive blur and Canny
thresholds, Otsu binary threshold, OR-combination, inversion, 1×1 then
2×2 dilation, black-on-white composition, original alpha binarized at
128 as the output alpha. -/
def create_coloring_book_effect (img : PILImage) : PILImage :=
  let alpha := alphaOfPIL img
  let gray := grayOfPIL img
  let high_contrast : Bool := decide ((1/4 : ℚ) < calculate_contrast_sq img)
  let sigma : ℚ := if high_contrast then 1/2 else 1
  let blurred := gaussianBlur gray 3 sigma
  let edges :=
    if high_contrast then canny blurred 50 150 else canny blurred 30 100
  let thresh := thresholdBinary blurred (otsuValue blurred) 255
  let combined := bitwise_or_mask edges thresh
  let inverted := bitwise_not_mask combined
  let fine_text_dilated := dilateK inverted (rectOffsets 1 1)
  let normal_text_dilated := dilateK fine_text_dilated (rectOffsets 2 2)
  let alpha_mask := thresholdBinary alpha 128 255
  ⟨.RGBA, img.h, img.w, fun y x =>
    if 0 < normal_text_dilated.px y x then
      ⟨0, 0, 0, alpha_mask.px y x⟩
    else
      ⟨255, 255, 255, alpha_mask.px y x⟩⟩

/-- `np.array(img)` then `cv2.cvtColor(..., COLOR_RGBA2BGRA)` then the
slice `[:, :, :3]`: the BGR color planes. -/
def pilToBGR (img : PILImage) : Grid BGR :=
  ⟨img.h, img.w, fun y x =>
    let p := img.px y x
    ⟨p.b, p.g, p.r⟩⟩

/-- `Image.fromarray(cv2.cvtColor(removed, COLOR_BGRA2RGBA))`. -/
def bgraToPIL (g : Grid BGRA) : PILImage :=
  ⟨.RGBA, g.h, g.w, fun y x =>
    let p := g.px y x
    ⟨p.r, p.g, p.b, p.a⟩⟩

/-- Embeds the pixel pipeline of `PushProcessor.create_push_notification`
(push_processor.py:207-273): convert to RGBA, validate dimensions,
resize to the 192×192 intermediate, optional white-background gate and
removal on the BGR planes, coloring-book effect, final 96×96 resize.
File validation and PNG saving act outside the pixel model; the method's
`try` re-raises, so errors propagate unchanged. -/
def create_push_notification (ext : CV2Ext) (img0 : PILImage)
    (remove_background_flag : Bool) : Except PyErr PILImage := do
  let img1 := img0.convertRGBA
  validate_dimensions img1
  let img2 := img1.resize (192, 192)
  let img3 ←
    if remove_background_flag then do
      let cv2_img := pilToBGR img2
      let has_white_bg ← detect_white_background cv2_img
      if has_white_bg then
        pure (bgraToPIL
          (remove_background ext backgroundRemoverDefaultMethod cv2_img))
      else
        pure img2
    else
      pure img2
  let processed := create_coloring_book_effect img3
  return processed.resize (96, 96)

/-! ## Batch orchestration service
(src/src/services/image_processing_service.py) -/

/-- Outcomes of the service's interactions with the file system and the
processor objects whose effects happen outside the pixel model:
`input_path.is_file()`, `output_dir.mkdir`, `cv2.imread` (None on
failure), `create_push_notification`, and the file-based
`process_format` / `process_logo` and `process_image` calls. The control
flow around these outcomes is embedded exactly. -/
structure ServiceEnv where
  inputIsFile : Bool
  mkdir : Except PyErr Unit
  imread : Option (Grid BGR)
  pushResult : Except PyErr Unit
  processFormatResult : String → Except PyErr Unit
  processImageResult : Except PyErr Unit

/-- A `ProcessingResult` dictionary: format plus success with output
path or failure with the caught error's message. -/
inductive PResult where
  | success (format : String) (output_path : String)
  | failed (format : String) (error : String)
  deriving DecidableEq, Repr

/-- The declared parameters of `ImageProcessor.process_image`
(image_processor.py:139). There is no `img_pil` parameter. -/
def process_image_params : List String :=
  ["input_path", "output_path", "width", "height", "bg_color"]

/-- The keyword arguments `_process_single_format` passes to
`process_image` in its background-removal branches
(image_processing_service.py:133-140, 155-162, 177-184). -/
def service_img_pil_kwargs : List String :=
  ["input_path", "output_path", "width", "height", "bg_color", "img_pil"]

/-- `output_dir / f-string(format_name).PNG`. -/
def outputPathFor (output_dir format_name : String) : String :=
  output_dir ++ "/" ++ format_name ++ ".PNG"

/-- Embeds `ImageProcessingService._convert_cv_to_pil`
(image_processing_service.py:204-223): 4-channel arrays are re-merged as
RGBA, 3-channel arrays converted BGR→RGB. -/
def convert_cv_to_pil : Sum (Grid BGR) (Grid BGRA) → PILImage
  | .inl g => ⟨.RGB, g.h, g.w, fun y x =>
      let p := g.px y x
      ⟨p.r, p.g, p.b, 255⟩⟩
  | .inr g => bgraToPIL g

/-- The `try` body of `ImageProcessingService._process_single_format`
(image_processing_service.py:76-194). The variable `img` is rebound to
the 4-channel removal output exactly when `has_white_bg` is true (which
the source only sets under `remove_background and supports_transparency`),
and the service's own `BackgroundRemover()` uses the default Combined
method. -/
def process_single_format_try (ext : CV2Ext) (env : ServiceEnv)
    (format_name : String) (remove_background_flag : Bool) :
    Except PyErr Unit := do
  if format_name = "PUSH" then
    env.pushResult
  else do
    let img ← match env.imread with
      | some i => Except.ok i
      | none => Except.error (.valueError "Failed to load image")
    let supports_transparency :=
      format_name = "LOGO" ∨ format_name = "LOGO_WIDE" ∨
        format_name = "APPICON"
    let has_white_bg ←
      if remove_background_flag ∧ supports_transparency then
        detect_white_background img
      else
        pure false
    let imgCur : Sum (Grid BGR) (Grid BGRA) :=
      if has_white_bg then
        .inr (remove_background ext backgroundRemoverDefaultMethod img)
      else
        .inl img
    if format_name = "LOGO_WIDE" then
      if remove_background_flag ∧ has_white_bg then do
        let _config ← lookupFormat baseFormatConfigs format_name
        let _img_pil := convert_cv_to_pil imgCur
        bindKwargs "process_image" process_image_params
          service_img_pil_kwargs
        env.processImageResult
      else
        env.processFormatResult format_name
    else if format_name = "LOGO" then
      if remove_background_flag ∧ has_white_bg then do
        let _config ← lookupFormat baseFormatConfigs format_name
        let _img_pil := convert_cv_to_pil imgCur
        bindKwargs "process_image" process_image_params
          service_img_pil_kwargs
        env.processImageResult
      else
        env.processFormatResult format_name
    else if format_name = "APPICON" ∧ remove_background_flag ∧
        has_white_bg then do
      let _config ← lookupFormat baseFormatConfigs format_name
      let _img_pil := convert_cv_to_pil imgCur
      bindKwargs "process_image" process_image_params
        service_img_pil_kwargs
      env.processImageResult
    else
      env.processFormatResult format_name

/-- Embeds `ImageProcessingService._process_single_format`: the `except`
boundary that converts any exception into a Failed result with the
error's message. -/
def process_single_format (ext : CV2Ext) (env : ServiceEnv)
    (output_dir format_name : String) (remove_background_flag : Bool) :
    PResult :=
  match process_single_format_try ext env format_name
      remove_background_flag with
  | .ok _ => .success format_name (outputPathFor output_dir format_name)
  | .error e => .failed format_name e.msg

/-- Embeds `ImageProcessingService.process_batch`
(image_processing_service.py:27-59): validate the input file, create the
output directory, then one `_process_single_format` call per selected
format; each per-format exception is already consumed inside
`process_single_format`. -/
def process_batch (ext : CV2Ext) (env : ServiceEnv) (output_dir : String)
    (selected_formats : List String) (remove_background_flag : Bool) :
    Except PyErr (List PResult) := do
  if ¬ env.inputIsFile then
    Except.error (.valueError "Invalid input file")
  else do
    env.mkdir
    return selected_formats.map fun f =>
      process_single_format ext env output_dir f remove_background_flag

/-- The declared parameters of `PushProcessor.__init__`
(push_processor.py:115): only `logger` (besides `self`). -/
def pushProcessorInitParams : List String := ["logger"]

/-- Embeds `ImageProcessingService.__init__`
(image_processing_service.py:18-25): constructs a `BackgroundRemover`,
then calls `PushProcessor(background_remover=self.background_remover)`.
CPython binds the keyword arguments against `PushProcessor.__init__`'s
declared parameters; on success the service state would carry the
remover's method. -/
def imageProcessingService_init : Except PyErr RemovalMethod := do
  let background_remover := backgroundRemoverDefaultMethod
  bindKwargs "PushProcessor.__init__" pushProcessorInitParams
    ["background_remover"]
  return background_remover

/-- C6. Constructing the orchestration service raises: `PushProcessor`
declares no `background_remover` parameter, so the keyword call in
`ImageProcessingService.__init__` is a `TypeError` — the service cannot
be constructed, and no engine sharing takes place (each `PushProcessor`
that can be constructed builds its own `BackgroundRemover`). The
source's own comment ("Pass the existing background_remover instance to
PushProcessor") and its test fixtures document the sharing intent that
this call breaks. -/
theorem imageProcessingService_init_raises :
    imageProcessingService_init = Except.error (.typeError
      ("PushProcessor.__init__ got an unexpected keyword argument " ++
        "background_remover")) := by
  rfl

/-! ## C10 — background-removal branches of `_process_single_format` -/

/-- Bind of a successful `Except` computation reduces to the
continuation. -/
theorem except_bind_ok {α β ε : Type} (a : α) (f : α → Except ε β) :
    (Except.ok a >>= f) = f a := rfl

/-- In the LOGO_WIDE branch with removal applied, the config lookup
`self.formats[format_name]` raises `KeyError` because the base format
table has no LOGO_WIDE entry, before `process_image` is ever called. -/
theorem try_logo_wide_keyerror (ext : CV2Ext) (env : ServiceEnv)
    (img : Grid BGR) (himg : env.imread = some img)
    (hwhite : detect_white_background img = .ok true) :
    process_single_format_try ext env "LOGO_WIDE" true =
      .error (.keyError "LOGO_WIDE") := by
  unfold process_single_format_try
  simp only [himg, except_bind_ok, hwhite]
  rfl

/-- In the LOGO branch with removal applied, binding the `img_pil`
keyword against `process_image`'s parameters raises `TypeError`. -/
theorem try_logo_typeerror (ext : CV2Ext) (env : ServiceEnv)
    (img : Grid BGR) (himg : env.imread = some img)
    (hwhite : detect_white_background img = .ok true) :
    process_single_format_try ext env "LOGO" true =
      .error (.typeError
        "process_image got an unexpected keyword argument img_pil") := by
  unfold process_single_format_try
  simp only [himg, except_bind_ok, hwhite]
  rfl

/-- In the APPICON branch with removal applied, the same `img_pil`
binding raises `TypeError`. -/
theorem try_appicon_typeerror (ext : CV2Ext) (env : ServiceEnv)
    (img : Grid BGR) (himg : env.imread = some img)
    (hwhite : detect_white_background img = .ok true) :
    process_single_format_try ext env "APPICON" true =
      .error (.typeError
        "process_image got an unexpected keyword argument img_pil") := by
  unfold process_single_format_try
  simp only [himg, except_bind_ok, hwhite]
  rfl

/-- The 2×2 all-white BGR image. -/
def whiteImg2 : Grid BGR := Grid.const 2 2 ⟨255, 255, 255⟩

/-- The border sample of the 2×2 all-white image. -/
theorem borderPixels_white2 :
    borderPixels (cvtColor_BGR2GRAY whiteImg2) = [255, 255, 255, 255] := by
  rfl

/-- The white-background gate fires on the all-white image. -/
theorem detect_white_whiteImg2 :
    detect_white_background whiteImg2 = .ok true := by
  unfold detect_white_background
  rw [if_neg (by simp [whiteImg2, Grid.const])]
  congr 1
  rw [decide_eq_true_eq]
  show (9/10 : ℚ) ≤ borderWhiteFraction whiteImg2 240
  unfold borderWhiteFraction
  rw [borderPixels_white2]
  norm_num [List.filter]

/-- A concrete environment: existing input file, successful directory
creation, the 2×2 white image loaded, all external processor calls
succeeding. -/
def envWhite : ServiceEnv :=
  ⟨true, Except.ok (), some whiteImg2, Except.ok (),
    fun _ => Except.ok (), Except.ok ()⟩

/-- C10, counterexample. The claim says all three transparency formats
fail because the orchestrator invokes `process_image` with the `img_pil`
keyword. For LOGO_WIDE the failure happens earlier: the base format
table (`BaseImageProcessor.FORMAT_CONFIGS`, which the service reads) has
no LOGO_WIDE entry, so `self.formats["LOGO_WIDE"]` raises `KeyError`
before any `process_image` call — the recorded error message is the
KeyError key, not the claimed TypeError message. -/
theorem logo_wide_fails_with_keyerror_not_img_pil :
    process_single_format extNone envWhite "out" "LOGO_WIDE" true =
      .failed "LOGO_WIDE" "LOGO_WIDE" ∧
    ("LOGO_WIDE" : String) ≠
      "process_image got an unexpected keyword argument img_pil" := by
  constructor
  · unfold process_single_format
    rw [try_logo_wide_keyerror extNone envWhite whiteImg2 rfl
      detect_white_whiteImg2]
    rfl
  · decide

/-- C10, amended. For every environment in which the image loads and the
white-background gate fires, processing LOGO or APPICON with
removal enabled always yields a Failed result caused by the undeclared
`img_pil` keyword argument to `process_image`; processing LOGO_WIDE
also always yields a Failed result, but from the `KeyError` raised by
the missing LOGO_WIDE entry of the service's format table. All three
formats can never succeed when background removal is actually
applied. -/
theorem bg_removal_formats_always_fail (ext : CV2Ext) (env : ServiceEnv)
    (output_dir : String) (img : Grid BGR)
    (himg : env.imread = some img)
    (hwhite : detect_white_background img = .ok true) :
    process_single_format ext env output_dir "LOGO" true =
      .failed "LOGO"
        "process_image got an unexpected keyword argument img_pil" ∧
    process_single_format ext env output_dir "APPICON" true =
      .failed "APPICON"
        "process_image got an unexpected keyword argument img_pil" ∧
    process_single_format ext env output_dir "LOGO_WIDE" true =
      .failed "LOGO_WIDE" "LOGO_WIDE" := by
  refine ⟨?_, ?_, ?_⟩
  · unfold process_single_format
    rw [try_logo_typeerror ext env img himg hwhite]
    rfl
  · unfold process_single_format
    rw [try_appicon_typeerror ext env img himg hwhite]
    rfl
  · unfold process_single_format
    rw [try_logo_wide_keyerror ext env img himg hwhite]
    rfl

/-- C10, witness for `bg_removal_formats_always_fail` on the concrete
white-image environment. -/
theorem bg_removal_formats_always_fail_witness :
    process_single_format extNone envWhite "out" "LOGO" true =
      .failed "LOGO"
        "process_image got an unexpected keyword argument img_pil" ∧
    process_single_format extNone envWhite "out" "APPICON" true =
      .failed "APPICON"
        "process_image got an unexpected keyword argument img_pil" ∧
    process_single_format extNone envWhite "out" "LOGO_WIDE" true =
      .failed "LOGO_WIDE" "LOGO_WIDE" :=
  bg_removal_formats_always_fail extNone envWhite "out" whiteImg2 rfl
    detect_white_whiteImg2

/-! ## C4 — batch isolation -/

/-- C4. For every environment with an existing input file and successful
output-directory creation, `process_batch` returns exactly one result
per entry of the requested format list (the list of the per-format
results, in order, each depending only on its own format); whenever the
guarded body for one format raises, that format's result is Failed
carrying the error's message, and — the batch being the `map` of the
per-format function — no other format's result is affected. -/
theorem process_batch_isolates_failures (ext : CV2Ext) (env : ServiceEnv)
    (output_dir : String) (selected_formats : List String)
    (remove_background_flag : Bool)
    (hfile : env.inputIsFile = true) (hmkdir : env.mkdir = .ok ()) :
    process_batch ext env output_dir selected_formats
        remove_background_flag =
      .ok (selected_formats.map fun f =>
        process_single_format ext env output_dir f
          remove_background_flag) ∧
    (selected_formats.map fun f =>
      process_single_format ext env output_dir f
        remove_background_flag).length = selected_formats.length ∧
    ∀ f e, process_single_format_try ext env f remove_background_flag =
        .error e →
      process_single_format ext env output_dir f remove_background_flag =
        .failed f e.msg := by
  refine ⟨?_, List.length_map _ _, ?_⟩
  · unfold process_batch
    rw [hfile]
    simp [hmkdir]
  · intro f e herr
    unfold process_single_format
    rw [herr]

/-- C4, witness: batch over PUSH, DEFAULT and LOGO_WIDE with removal on
the white-image environment: three results, one per format, the
LOGO_WIDE failure isolated. -/
theorem process_batch_isolates_failures_witness :
    process_batch extNone envWhite "out" ["PUSH", "DEFAULT", "LOGO_WIDE"]
        true =
      .ok (["PUSH", "DEFAULT", "LOGO_WIDE"].map fun f =>
        process_single_format extNone envWhite "out" f true) ∧
    (["PUSH", "DEFAULT", "LOGO_WIDE"].map fun f =>
      process_single_format extNone envWhite "out" f true).length =
        (["PUSH", "DEFAULT", "LOGO_WIDE"] : List String).length ∧
    ∀ f e, process_single_format_try extNone envWhite f true = .error e →
      process_single_format extNone envWhite "out" f true =
        .failed f e.msg :=
  process_batch_isolates_failures extNone envWhite "out"
    ["PUSH", "DEFAULT", "LOGO_WIDE"] true rfl rfl

/-! ## Constant-propagation lemmas for the pixel pipelines

A uniform image stays uniform through every embedded stage; the C7
scenario (all-white source) is settled by chaining these lemmas. -/

/-- Sum of an enumerated map against a constant. -/
theorem enumFrom_map_mul_const_sum (k : List ℚ) (c : ℚ) :
    ∀ n, ((List.enumFrom n k).map fun p => p.2 * c).sum = k.sum * c := by
  induction k with
  | nil => intro n; simp
  | cons a t ih =>
    intro n
    simp [List.enumFrom, ih (n + 1), add_mul]

/-- Weighted sum of a constant function. -/
theorem wsum_const (k : List ℚ) (c : ℚ) :
    wsum k (fun _ => c) = k.sum * c := by
  unfold wsum List.enum
  exact enumFrom_map_mul_const_sum k c 0

/-- Weighted sums agree on equal functions. -/
theorem wsum_congr (k : List ℚ) (f g : Nat → ℚ) (h : ∀ i, f i = g i) :
    wsum k f = wsum k g := by
  rw [funext h]

/-- Dividing a list elementwise divides the sum. -/
theorem sum_map_div (l : List ℚ) (s : ℚ) :
    (l.map (· / s)).sum = l.sum / s := by
  induction l with
  | nil => simp
  | cons a t ih => simp [ih, add_div]

/-- A normalized kernel has total mass 1. -/
theorem normalizeQ_sum (l : List ℚ) (h : l.sum ≠ 0) :
    (normalizeQ l).sum = 1 := by
  unfold normalizeQ
  rw [sum_map_div]
  field_simp

/-- `clip8` is the identity on uint8 values. -/
theorem clip8_natCast (c : Nat) (hc : c ≤ 255) : clip8 ((c : Nat) : ℚ) = c := by
  unfold clip8
  have hfloor : ⌊((c : Nat) : ℚ) + 1/2⌋ = (c : ℤ) := by
    rw [Int.floor_eq_iff]
    constructor
    · push_cast; linarith
    · push_cast; linarith
  rw [hfloor]
  have h1 : max 0 ((c : Nat) : ℤ) = (c : ℤ) :=
    max_eq_right (by exact_mod_cast Nat.zero_le c)
  rw [h1]
  simp
  omega

/-- Every Gaussian kernel (tabulated or surrogate) has positive raw
mass. -/
theorem gaussianKernelRaw_sum_pos (ksize : Nat) (sigma : ℚ)
    (hk : 1 ≤ ksize) : 0 < (gaussianKernelRaw ksize sigma).sum := by
  unfold gaussianKernelRaw
  split
  · norm_num
  · split
    · norm_num
    · split
      · norm_num
      · split
        · norm_num
        · apply List.sum_pos
          · intro v hv
            simp only [List.mem_map, List.mem_range] at hv
            obtain ⟨i, _, rfl⟩ := hv
            positivity
          · intro hmapnil
            have : List.range ksize = [] := List.map_eq_nil_iff.mp hmapnil
            rw [List.range_eq_nil] at this
            omega

/-- Gaussian blur maps a uniform image to itself. -/
theorem gaussianBlur_isConstOn (g : Gray) (c ksize : Nat) (sigma : ℚ)
    (hg : g.IsConstOn c) (hh : 0 < g.h) (hw : 0 < g.w) (hc : c ≤ 255)
    (hk : 1 ≤ ksize) : (gaussianBlur g ksize sigma).IsConstOn c := by
  intro y x _ _
  show clip8 _ = c
  set k := normalizeQ (gaussianKernelRaw ksize sigma) with hkdef
  have hksum : k.sum = 1 :=
    normalizeQ_sum _ (ne_of_gt (gaussianKernelRaw_sum_pos ksize sigma hk))
  have hinner : ∀ i : Nat,
      wsum k (fun j => ((g.at ((y : Int) + (i : Int) - ((ksize : Int) / 2))
          ((x : Int) + (j : Int) - ((ksize : Int) / 2)) : Nat) : ℚ)) =
        ((c : Nat) : ℚ) := by
    intro i
    rw [wsum_congr k _ (fun _ => ((c : Nat) : ℚ))
      (fun j => by rw [Grid.at_of_isConstOn hg hh hw]),
      wsum_const, hksum, one_mul]
  rw [wsum_congr k _ (fun _ => ((c : Nat) : ℚ)) hinner, wsum_const, hksum,
    one_mul, clip8_natCast c hc]

/-- Horizontal Sobel vanishes on a uniform image. -/
theorem sobelX_isConstOn (g : Gray) (c : Nat) (hg : g.IsConstOn c)
    (hh : 0 < g.h) (hw : 0 < g.w) (y x : Int) : sobelX g y x = 0 := by
  unfold sobelX
  simp only [Grid.at_of_isConstOn hg hh hw]
  ring

/-- Vertical Sobel vanishes on a uniform image. -/
theorem sobelY_isConstOn (g : Gray) (c : Nat) (hg : g.IsConstOn c)
    (hh : 0 < g.h) (hw : 0 < g.w) (y x : Int) : sobelY g y x = 0 := by
  unfold sobelY
  simp only [Grid.at_of_isConstOn hg hh hw]
  ring

/-- Gradient magnitude vanishes on a uniform image. -/
theorem cannyMag_isConstOn (g : Gray) (c : Nat) (hg : g.IsConstOn c)
    (hh : 0 < g.h) (hw : 0 < g.w) (y x : Int) : cannyMag g y x = 0 := by
  unfold cannyMag
  rw [sobelX_isConstOn g c hg hh hw, sobelY_isConstOn g c hg hh hw]
  rfl

/-- Hysteresis expansion of an empty current set stays empty. -/
theorem reachStep_all_false (cand : Nat → Nat → Bool) (h w : Nat)
    (cur : Nat → Nat → Bool) (hcur : ∀ y x, cur y x = false) (y x : Nat) :
    reachStep cand h w cur y x = false := by
  unfold reachStep
  simp [hcur]

/-- Any number of hysteresis steps from an empty strong set yields no
edges. -/
theorem reachN_all_false (cand : Nat → Nat → Bool) (h w : Nat)
    (strong : Nat → Nat → Bool) (hs : ∀ y x, strong y x = false) :
    ∀ n y x, reachN cand h w strong n y x = false := by
  intro n
  induction n with
  | zero => exact hs
  | succ n ih =>
    intro y x
    exact reachStep_all_false cand h w _ ih y x

/-- Canny yields the zero mask on a uniform image (no gradients, so
no pixel exceeds the positive high threshold). -/
theorem canny_isConstOn_zero (g : Gray) (c lo hi : Nat)
    (hg : g.IsConstOn c) (hh : 0 < g.h) (hw : 0 < g.w) :
    (canny g lo hi).IsConstOn 0 := by
  have hstrong : ∀ y x : Nat,
      (decide ((hi : Int) < cannyMag g (y : Int) (x : Int)) &&
        cannyNms g (y : Int) (x : Int)) = false := by
    intro y x
    rw [cannyMag_isConstOn g c hg hh hw]
    have : ¬ ((hi : Int) < 0) := not_lt.mpr (Int.natCast_nonneg hi)
    rw [decide_eq_false this, Bool.false_and]
  intro y x _ _
  show (if reachN _ g.h g.w _ (g.h * g.w) y x then (255 : Nat) else 0) = 0
  rw [reachN_all_false _ _ _ _ hstrong (g.h * g.w) y x]
  rfl

/-- Folding `max` from 0 over zeros gives 0. -/
theorem foldl_max_zero (l : List Nat) (hl : ∀ v ∈ l, v = 0) :
    l.foldl max 0 = 0 := by
  induction l with
  | nil => rfl
  | cons a t ih =>
    have ha : a = 0 := hl a (List.mem_cons_self a t)
    subst ha
    rw [List.foldl_cons]
    exact ih fun v hv => hl v (List.mem_cons_of_mem _ hv)

/-- Dilation of the zero mask is the zero mask. -/
theorem dilateK_isConstOn_zero (g : Gray) (ker : List (Int × Int))
    (hg : g.IsConstOn 0) : (dilateK g ker).IsConstOn 0 := by
  intro y x _ _
  show List.foldl max 0 _ = 0
  apply foldl_max_zero
  intro v hv
  simp only [List.mem_filterMap] at hv
  obtain ⟨d, _, hd⟩ := hv
  by_cases hcond : (0 ≤ (y : Int) + d.1 ∧ (y : Int) + d.1 < (g.h : Int) ∧
      0 ≤ (x : Int) + d.2 ∧ (x : Int) + d.2 < (g.w : Int))
  · rw [if_pos hcond] at hd
    obtain ⟨h1, h2, h3, h4⟩ := hcond
    have hy' : ((y : Int) + d.1).toNat < g.h := by omega
    have hx' : ((x : Int) + d.2).toNat < g.w := by omega
    have := hg _ _ hy' hx'
    rw [this] at hd
    exact (Option.some_injective _ hd).symm
  · rw [if_neg hcond] at hd
    exact absurd hd (by simp)

/-- Binary threshold of a uniform image above the threshold is the
uniform `maxval` mask. -/
theorem thresholdBinary_isConstOn (g : Gray) (c maxval : Nat) (t : ℚ)
    (hg : g.IsConstOn c) (ht : t < ((c : Nat) : ℚ)) :
    (thresholdBinary g t maxval).IsConstOn maxval := by
  intro y x hy hx
  show (if t < ((g.px y x : Nat) : ℚ) then maxval else 0) = maxval
  rw [hg y x hy hx, if_pos ht]

/-- OR of uniform masks is the uniform OR. -/
theorem bitwise_or_isConstOn (a b : Gray) (ca cb : Nat)
    (ha : a.IsConstOn ca) (hb : b.IsConstOn cb)
    (hbh : a.h ≤ b.h) (hbw : a.w ≤ b.w) :
    (bitwise_or_mask a b).IsConstOn (Nat.lor ca cb) := by
  intro y x hy hx
  show Nat.lor (a.px y x) (b.px y x) = Nat.lor ca cb
  rw [ha y x hy hx, hb y x (lt_of_lt_of_le hy hbh) (lt_of_lt_of_le hx hbw)]

/-- NOT of a uniform mask is the uniform complement. -/
theorem bitwise_not_isConstOn (a : Gray) (ca : Nat) (ha : a.IsConstOn ca) :
    (bitwise_not_mask a).IsConstOn (255 - ca) := by
  intro y x hy hx
  show 255 - a.px y x = 255 - ca
  rw [ha y x hy hx]

/-- Histogram of a uniform image: all the mass sits in one bin. -/
theorem calcHist_isConstOn (g : Gray) (c : Nat) (hg : g.IsConstOn c)
    (v : Nat) : calcHist g v = if v = c then g.h * g.w else 0 := by
  unfold calcHist
  have step1 : (∑ y in Finset.range g.h, ∑ x in Finset.range g.w,
      if g.px y x = v then (1 : Nat) else 0) =
      ∑ _y in Finset.range g.h, ∑ _x in Finset.range g.w,
        (if v = c then (1 : Nat) else 0) := by
    refine Finset.sum_congr rfl fun y hy => Finset.sum_congr rfl fun x hx => ?_
    rw [hg y x (Finset.mem_range.mp hy) (Finset.mem_range.mp hx)]
    by_cases h : v = c
    · rw [if_pos h.symm, if_pos h]
    · rw [if_neg (fun hc => h hc.symm), if_neg h]
  rw [step1]
  by_cases h : v = c
  · simp [h, Finset.sum_const, Finset.card_range, smul_eq_mul]
  · simp [h]

/-- A histogram concentrated in one bin. -/
def concHist (b n : Nat) : Nat → Nat := fun i => if i = b then n else 0

/-- Total mass of a concentrated histogram. -/
theorem concHist_total (b n : Nat) (hb : b < 256) :
    (∑ i in Finset.range 256, ((concHist b n i : Nat) : ℚ)) = (n : ℚ) := by
  unfold concHist
  push_cast
  rw [Finset.sum_ite_eq' (Finset.range 256) b (fun _ => (n : ℚ)),
    if_pos (Finset.mem_range.mpr hb)]

/-- Otsu iteration at an empty bin with first-class mass 0: the split is
degenerate, the iteration only zeroes the running mean. -/
theorem otsuStep_zero_ne (b n : Nat) (mu : ℚ) (s : OtsuState) (i : Nat)
    (hib : i ≠ b) (hq : s.q1 = 0) :
    otsuStep (concHist b n) (1/(n : ℚ)) mu s i =
      ⟨0, 0, s.maxSigma, s.maxVal⟩ := by
  simp only [otsuStep, concHist, if_neg hib, Nat.cast_zero, zero_mul, hq,
    add_zero, mul_zero, sub_zero]
  rw [if_pos]
  left
  norm_num [FLT_EPSILON]

/-- Otsu iteration at the occupied bin from mass 0: the mass jumps to 1,
the complement class is empty, the iteration is skipped. -/
theorem otsuStep_zero_b (b n : Nat) (hn : 0 < n) (mu : ℚ) (s : OtsuState)
    (hq : s.q1 = 0) :
    otsuStep (concHist b n) (1/(n : ℚ)) mu s b =
      ⟨0, 1, s.maxSigma, s.maxVal⟩ := by
  have hp : ((concHist b n b : Nat) : ℚ) * (1/(n : ℚ)) = 1 := by
    simp only [concHist, if_pos rfl]
    field_simp
  simp only [otsuStep, hp, hq, mul_zero, zero_add]
  rw [if_pos]
  norm_num [FLT_EPSILON]

/-- Otsu iteration at an empty bin with first-class mass 1: the
complement class is empty, the iteration is skipped and preserves the
state. -/
theorem otsuStep_one_ne (b n : Nat) (mu : ℚ) (s : OtsuState) (i : Nat)
    (hib : i ≠ b) (hq : s.q1 = 1) :
    otsuStep (concHist b n) (1/(n : ℚ)) mu s i =
      ⟨s.mu1, 1, s.maxSigma, s.maxVal⟩ := by
  simp only [otsuStep, concHist, if_neg hib, Nat.cast_zero, zero_mul, hq,
    add_zero, mul_one]
  rw [if_pos]
  norm_num [FLT_EPSILON]

/-- Folding Otsu iterations over empty bins from mass 0 preserves the
maximizer. -/
theorem otsuFold_zero (b n : Nat) (mu : ℚ) (l : List Nat) :
    ∀ s : OtsuState, (∀ i ∈ l, i ≠ b) → s.q1 = 0 →
      (l.foldl (otsuStep (concHist b n) (1/(n : ℚ)) mu) s).maxVal =
        s.maxVal ∧
      (l.foldl (otsuStep (concHist b n) (1/(n : ℚ)) mu) s).maxSigma =
        s.maxSigma ∧
      (l.foldl (otsuStep (concHist b n) (1/(n : ℚ)) mu) s).q1 = 0 := by
  induction l with
  | nil => intro s _ hq; exact ⟨rfl, rfl, hq⟩
  | cons i t ih =>
    intro s hl hq
    rw [List.foldl_cons,
      otsuStep_zero_ne b n mu s i (hl i (List.mem_cons_self i t)) hq]
    exact ih _ (fun j hj => hl j (List.mem_cons_of_mem _ hj)) rfl

/-- Folding Otsu iterations over empty bins from mass 1 preserves the
maximizer. -/
theorem otsuFold_one (b n : Nat) (mu : ℚ) (l : List Nat) :
    ∀ s : OtsuState, (∀ i ∈ l, i ≠ b) → s.q1 = 1 →
      (l.foldl (otsuStep (concHist b n) (1/(n : ℚ)) mu) s).maxVal =
        s.maxVal ∧
      (l.foldl (otsuStep (concHist b n) (1/(n : ℚ)) mu) s).q1 = 1 := by
  induction l with
  | nil => intro s _ hq; exact ⟨rfl, hq⟩
  | cons i t ih =>
    intro s hl hq
    rw [List.foldl_cons,
      otsuStep_one_ne b n mu s i (hl i (List.mem_cons_self i t)) hq]
    exact ih _ (fun j hj => hl j (List.mem_cons_of_mem _ hj)) rfl

/-- OpenCV's Otsu loop on a concentrated histogram returns threshold 0:
every iteration has a degenerate class split (`q1 ∈ {0, 1}`), so the
maximizer is never updated. This is exactly why the code's
`THRESH_BINARY + THRESH_OTSU` on a uniform image keeps every pixel. -/
theorem otsuThreshold_concentrated (b n : Nat) (hb : b < 256)
    (hn : 0 < n) : otsuThreshold (concHist b n) = 0 := by
  have hsplit : List.range 256 =
      List.range b ++ (List.range (256 - b)).map (b + ·) := by
    rw [← List.range_add b (256 - b)]
    congr 1
    omega
  have hsplit2 : (List.range (256 - b)).map (b + ·) =
      b :: ((List.range (255 - b)).map fun j => b + Nat.succ j) := by
    have h1 : 256 - b = (255 - b) + 1 := by omega
    rw [h1, List.range_succ_eq_map, List.map_cons, List.map_map]
    congr 1
  unfold otsuThreshold otsuRun
  rw [concHist_total b n hb, hsplit, hsplit2, List.foldl_append,
    List.foldl_cons]
  obtain ⟨hV1, hS1, hQ1⟩ := otsuFold_zero b n _ (List.range b)
    ⟨0, 0, 0, 0⟩ (fun i hi => by have := List.mem_range.mp hi; omega) rfl
  rw [otsuStep_zero_b b n hn _ _ hQ1]
  unfold otsuMaxVal
  obtain ⟨hV3, _⟩ := otsuFold_one b n _
    ((List.range (255 - b)).map fun j => b + Nat.succ j)
    ⟨0, 1, _, _⟩
    (fun i hi => by
      simp only [List.mem_map] at hi
      obtain ⟨j, _, rfl⟩ := hi
      omega)
    rfl
  rw [hV3]
  simp only [hS1, hV1]

/-- The Otsu threshold of a uniform image is 0. -/
theorem otsuValue_isConstOn (g : Gray) (c : Nat) (hg : g.IsConstOn c)
    (hc : c < 256) (hpos : 0 < g.h * g.w) : otsuValue g = 0 := by
  unfold otsuValue
  have hfun : calcHist g = concHist c (g.h * g.w) := by
    funext v
    rw [calcHist_isConstOn g c hg v]
    rfl
  rw [hfun]
  exact otsuThreshold_concentrated c (g.h * g.w) hc hpos

/-- The resampling kernel surrogate is nonnegative. -/
theorem resampleKernelQ_nonneg (x : ℚ) : 0 ≤ resampleKernelQ x :=
  le_max_left 0 _

/-- A list of nonnegative rationals with one positive member has
positive sum. -/
theorem list_sum_pos_of_mem (l : List ℚ) (hnn : ∀ v ∈ l, 0 ≤ v)
    (a : ℚ) (ha : a ∈ l) (hpos : 0 < a) : 0 < l.sum := by
  induction l with
  | nil => cases ha
  | cons b t ih =>
    rw [List.sum_cons]
    rcases List.mem_cons.mp ha with rfl | hat
    · have ht : 0 ≤ t.sum :=
        List.sum_nonneg fun v hv => hnn v (List.mem_cons_of_mem _ hv)
      linarith
    · have hb : 0 ≤ b := hnn b (List.mem_cons_self b t)
      have := ih (fun v hv => hnn v (List.mem_cons_of_mem _ hv)) hat
      linarith

/-- Every tap of the coefficient window lies inside the source
extent. -/
theorem resampleWindow_mem_lt (srcSize dstSize xx : Nat) (p : Nat × ℚ)
    (hp : p ∈ resampleWindow srcSize dstSize xx) : p.1 < srcSize := by
  simp only [resampleWindow, List.mem_map, List.mem_range] at hp
  obtain ⟨k, hk, rfl⟩ := hp
  have : windowHi srcSize dstSize xx ≤ srcSize := min_le_left _ _
  simp only
  omega

/-- Basic geometry of the window center. -/
theorem rsCenter_bounds (srcSize dstSize xx : Nat)
    (hs : 0 < srcSize) (hx : xx < dstSize) :
    0 < rsCenter srcSize dstSize xx ∧
    rsCenter srcSize dstSize xx < (srcSize : ℚ) := by
  have hd : 0 < dstSize := lt_of_le_of_lt (Nat.zero_le xx) hx
  have hscalepos : 0 < rsScale srcSize dstSize :=
    div_pos (by exact_mod_cast hs) (by exact_mod_cast hd)
  constructor
  · exact mul_pos (by positivity) hscalepos
  · have h1 : (xx : ℚ) + 1/2 < (dstSize : ℚ) := by
      have : (xx : ℚ) + 1 ≤ (dstSize : ℚ) := by exact_mod_cast hx
      linarith
    have h2 : ((xx : ℚ) + 1/2) * rsScale srcSize dstSize <
        (dstSize : ℚ) * rsScale srcSize dstSize :=
      mul_lt_mul_of_pos_right h1 hscalepos
    have h3 : (dstSize : ℚ) * rsScale srcSize dstSize = (srcSize : ℚ) := by
      unfold rsScale
      field_simp
    exact h3 ▸ h2

/-- The filter scale is at least 1. -/
theorem rsFScale_ge_one (srcSize dstSize : Nat) :
    1 ≤ rsFScale srcSize dstSize := le_max_left _ _

set_option maxHeartbeats 1600000 in
/-- The coefficient window has positive total raw weight: the tap
nearest the center lies in the window and its kernel value is at least
5/2. -/
theorem resampleWindow_sum_pos (srcSize dstSize xx : Nat)
    (hs : 0 < srcSize) (hx : xx < dstSize) :
    0 < ((resampleWindow srcSize dstSize xx).map fun p => p.2).sum := by
  obtain ⟨hcpos, hclt⟩ := rsCenter_bounds srcSize dstSize xx hs hx
  have hfs1 : 1 ≤ rsFScale srcSize dstSize := rsFScale_ge_one _ _
  have hfspos : (0 : ℚ) < rsFScale srcSize dstSize := by linarith
  have hsup3 : (3 : ℚ) ≤ rsSupport srcSize dstSize := by
    unfold rsSupport
    nlinarith
  set center := rsCenter srcSize dstSize xx with hcdef
  have hfl0 : 0 ≤ ⌊center⌋ := Int.floor_nonneg.mpr (le_of_lt hcpos)
  set ss0 : Nat := (⌊center⌋).toNat with hss0def
  have hss0cast : ((ss0 : Nat) : ℚ) ≤ center ∧ center < (ss0 : ℚ) + 1 := by
    have h1 : ((⌊center⌋ : ℤ) : ℚ) ≤ center := Int.floor_le center
    have h2 : center < ((⌊center⌋ : ℤ) : ℚ) + 1 := Int.lt_floor_add_one center
    have h3 : ((ss0 : Nat) : ℚ) = ((⌊center⌋ : ℤ) : ℚ) := by
      rw [hss0def]
      exact_mod_cast congrArg (fun z : ℤ => (z : ℚ)) (Int.toNat_of_nonneg hfl0)
    exact ⟨h3 ▸ h1, h3 ▸ h2⟩
  have hss0lt : ss0 < srcSize := by
    have : ⌊center⌋ < (srcSize : ℤ) := Int.floor_lt.mpr (by exact_mod_cast hclt)
    omega
  have hAle : ⌊center - rsSupport srcSize dstSize + 1/2⌋ ≤ ⌊center⌋ :=
    Int.floor_le_floor (by linarith)
  have hlole : windowLo srcSize dstSize xx ≤ ss0 := by
    unfold windowLo
    rw [← hcdef]
    omega
  have hhiQ : (⌊center⌋ + 3 : ℤ) ≤
      ⌊center + rsSupport srcSize dstSize + 1/2⌋ := by
    have h1 : center + ((3 : ℤ) : ℚ) ≤ center + rsSupport srcSize dstSize + 1/2 := by
      push_cast
      linarith
    calc (⌊center⌋ + 3 : ℤ) = ⌊center + ((3 : ℤ) : ℚ)⌋ :=
          (Int.floor_add_int center 3).symm
      _ ≤ _ := Int.floor_le_floor h1
  have hhigt : ss0 < windowHi srcSize dstSize xx := by
    unfold windowHi
    rw [← hcdef]
    omega
  have harg : |(((ss0 : Nat) : ℚ) + 1/2 - center) / rsFScale srcSize dstSize| ≤ 1/2 := by
    rw [abs_div, abs_of_pos hfspos]
    have hnum : |((ss0 : Nat) : ℚ) + 1/2 - center| ≤ 1/2 :=
      abs_le.mpr ⟨by linarith [hss0cast.2], by linarith [hss0cast.1]⟩
    rw [div_le_iff₀ hfspos]
    nlinarith [abs_nonneg (((ss0 : Nat) : ℚ) + 1/2 - center)]
  have hwpos : 0 < resampleKernelQ
      ((((ss0 : Nat) : ℚ) + 1/2 - center) / rsFScale srcSize dstSize) := by
    unfold resampleKernelQ
    have h1 : (5/2 : ℚ) ≤ 3 -
        |(((ss0 : Nat) : ℚ) + 1/2 - center) / rsFScale srcSize dstSize| := by
      linarith
    have h2 : (0 : ℚ) < 3 -
        |(((ss0 : Nat) : ℚ) + 1/2 - center) / rsFScale srcSize dstSize| := by
      linarith
    exact lt_of_lt_of_le h2 (le_max_right 0 _)
  apply list_sum_pos_of_mem _
    (by
      intro v hv
      simp only [List.mem_map] at hv
      obtain ⟨p, hp, rfl⟩ := hv
      simp only [resampleWindow, List.mem_map, List.mem_range] at hp
      obtain ⟨k, _, rfl⟩ := hp
      exact resampleKernelQ_nonneg _)
    (resampleKernelQ
      ((((ss0 : Nat) : ℚ) + 1/2 - center) / rsFScale srcSize dstSize))
    ?_ hwpos
  have hmem : (ss0, resampleKernelQ
      ((((ss0 : Nat) : ℚ) + 1/2 - center) / rsFScale srcSize dstSize)) ∈
      resampleWindow srcSize dstSize xx := by
    unfold resampleWindow
    rw [List.mem_map]
    refine ⟨ss0 - windowLo srcSize dstSize xx, List.mem_range.mpr (by omega), ?_⟩
    have hplus : windowLo srcSize dstSize xx +
        (ss0 - windowLo srcSize dstSize xx) = ss0 := by omega
    rw [hplus, ← hcdef]
  rw [List.mem_map]
  exact ⟨_, hmem, rfl⟩

/-- Multiplying a mapped list by a constant on the right multiplies the
sum. -/
theorem sum_map_mul_const {α : Type} (l : List α) (g : α → ℚ) (c : ℚ) :
    (l.map fun a => g a * c).sum = (l.map g).sum * c := by
  induction l with
  | nil => simp
  | cons b t ih => simp [ih, add_mul]

/-- Resampling a function constant on the source extent returns that
constant. -/
theorem resample1D_const (srcSize dstSize xx : Nat) (hs : 0 < srcSize)
    (hx : xx < dstSize) (f : Nat → ℚ) (c : ℚ)
    (hf : ∀ i, i < srcSize → f i = c) :
    resample1D srcSize dstSize xx f = c := by
  unfold resample1D
  have hmapeq : (resampleWindow srcSize dstSize xx).map (fun p => p.2 * f p.1) =
      (resampleWindow srcSize dstSize xx).map (fun p => p.2 * c) := by
    apply List.map_congr_left
    intro p hp
    rw [hf p.1 (resampleWindow_mem_lt srcSize dstSize xx p hp)]
  rw [hmapeq, sum_map_mul_const]
  have hpos := resampleWindow_sum_pos srcSize dstSize xx hs hx
  rw [mul_comm]
  exact mul_div_cancel_right₀ c (ne_of_gt hpos)

/-- Horizontal resampling preserves a uniform image. -/
theorem resampleH_isConstOn (g : Gray) (c dstW : Nat)
    (hg : g.IsConstOn c) (hw : 0 < g.w) (hc : c ≤ 255) :
    (resampleH g dstW).IsConstOn c := by
  intro y x hy hx
  show clip8 (resample1D g.w dstW x fun ss => ((g.px y ss : Nat) : ℚ)) = c
  rw [resample1D_const g.w dstW x hw hx _ ((c : Nat) : ℚ)
    (fun i hi => by rw [hg y i hy hi]), clip8_natCast c hc]

/-- Vertical resampling preserves a uniform image. -/
theorem resampleV_isConstOn (g : Gray) (c dstH : Nat)
    (hg : g.IsConstOn c) (hh : 0 < g.h) (hc : c ≤ 255) :
    (resampleV g dstH).IsConstOn c := by
  intro y x hy hx
  show clip8 (resample1D g.h dstH y fun ss => ((g.px ss x : Nat) : ℚ)) = c
  rw [resample1D_const g.h dstH y hh hy _ ((c : Nat) : ℚ)
    (fun i hi => by rw [hg i x hi hx]), clip8_natCast c hc]

/-- Uniformity predicate for PIL images. -/
def PILImage.IsConstOn (img : PILImage) (c : RGBA) : Prop :=
  ∀ y x, y < img.h → x < img.w → img.px y x = c

/-- `resize` preserves a uniform image (each band resamples a constant
plane). -/
theorem resize_isConstOn (img : PILImage) (c : RGBA) (size : Nat × Nat)
    (hg : img.IsConstOn c) (hh : 0 < img.h) (hw : 0 < img.w)
    (_h1 : 0 < size.1) (_h2 : 0 < size.2)
    (hcr : c.r ≤ 255) (hcg : c.g ≤ 255) (hcb : c.b ≤ 255)
    (hca : c.a ≤ 255) : (img.resize size).IsConstOn c := by
  intro y x hy hx
  have hband : ∀ (f : RGBA → Nat) (v : Nat), v ≤ 255 →
      (∀ p : RGBA, p = c → f p = v) →
      (resampleV (resampleH (chanGrid img f) size.1) size.2).px y x = v := by
    intro f v hv hfv
    have hchan : (chanGrid img f).IsConstOn v := by
      intro yy xx hyy hxx
      exact hfv _ (hg yy xx hyy hxx)
    have hH : (resampleH (chanGrid img f) size.1).IsConstOn v :=
      resampleH_isConstOn _ v size.1 hchan hw hv
    have hV : (resampleV (resampleH (chanGrid img f) size.1) size.2).IsConstOn v :=
      resampleV_isConstOn _ v size.2 hH hh hv
    exact hV y x hy hx
  show (⟨_, _, _, _⟩ : RGBA) = c
  have hr := hband (·.r) c.r hcr (fun p hp => by rw [hp])
  have hgc := hband (·.g) c.g hcg (fun p hp => by rw [hp])
  have hb := hband (·.b) c.b hcb (fun p hp => by rw [hp])
  have ha := hband (·.a) c.a hca (fun p hp => by rw [hp])
  rw [hr, hgc, hb, ha]

/-- Luma of opaque white is 255. -/
theorem rgbaToGray_white : rgbaToGray ⟨255, 255, 255, 255⟩ = 255 := by
  decide

/-- The blur→(Canny ∥ Otsu-threshold)→OR→NOT→dilate×2 chain of the
coloring-book effect produces the zero mask on a uniform 255 (white)
plane, for any blur sigma and any Canny thresholds: Canny finds no
edges, Otsu returns threshold 0 so the binary threshold is all 255, the
OR is all 255, the inversion all 0, and dilation keeps the zero mask. -/
theorem coloring_chain_zero (gray : Gray) (sigma : ℚ) (lo hi : Nat)
    (hgray : gray.IsConstOn 255) (hh : 0 < gray.h) (hw : 0 < gray.w) :
    (dilateK (dilateK (bitwise_not_mask (bitwise_or_mask
      (canny (gaussianBlur gray 3 sigma) lo hi)
      (thresholdBinary (gaussianBlur gray 3 sigma)
        (otsuValue (gaussianBlur gray 3 sigma)) 255)))
      (rectOffsets 1 1)) (rectOffsets 2 2)).IsConstOn 0 := by
  have hb : (gaussianBlur gray 3 sigma).IsConstOn 255 :=
    gaussianBlur_isConstOn gray 255 3 sigma hgray hh hw (by norm_num)
      (by norm_num)
  have hedges : (canny (gaussianBlur gray 3 sigma) lo hi).IsConstOn 0 :=
    canny_isConstOn_zero _ 255 lo hi hb hh hw
  have hotsu : otsuValue (gaussianBlur gray 3 sigma) = 0 :=
    otsuValue_isConstOn _ 255 hb (by norm_num) (Nat.mul_pos hh hw)
  have ht : (thresholdBinary (gaussianBlur gray 3 sigma)
      (otsuValue (gaussianBlur gray 3 sigma)) 255).IsConstOn 255 := by
    apply thresholdBinary_isConstOn _ 255 255 _ hb
    rw [hotsu]
    norm_num
  have hor : (bitwise_or_mask
      (canny (gaussianBlur gray 3 sigma) lo hi)
      (thresholdBinary (gaussianBlur gray 3 sigma)
        (otsuValue (gaussianBlur gray 3 sigma)) 255)).IsConstOn
      (Nat.lor 0 255) :=
    bitwise_or_isConstOn _ _ 0 255 hedges ht (le_refl _) (le_refl _)
  have hlor : Nat.lor 0 255 = 255 := by decide
  rw [hlor] at hor
  have hnot : (bitwise_not_mask (bitwise_or_mask
      (canny (gaussianBlur gray 3 sigma) lo hi)
      (thresholdBinary (gaussianBlur gray 3 sigma)
        (otsuValue (gaussianBlur gray 3 sigma)) 255))).IsConstOn
      (255 - 255) :=
    bitwise_not_isConstOn _ 255 hor
  have h255 : (255 : Nat) - 255 = 0 := by decide
  rw [h255] at hnot
  exact dilateK_isConstOn_zero _ _ (dilateK_isConstOn_zero _ _ hnot)

/-- The coloring-book effect maps a uniform opaque-white RGBA image to a
uniform opaque-white RGBA image: the edge/threshold mask is empty, so
every pixel composes to white, and the binarized alpha stays 255. -/
theorem coloring_book_white (img : PILImage) (hmode : img.mode = .RGBA)
    (hconst : img.IsConstOn ⟨255, 255, 255, 255⟩)
    (hh : 0 < img.h) (hw : 0 < img.w) :
    (create_coloring_book_effect img).IsConstOn ⟨255, 255, 255, 255⟩ := by
  have hgray : (grayOfPIL img).IsConstOn 255 := by
    intro y x hy hx
    show rgbaToGray (img.px y x) = 255
    rw [hconst y x hy hx]
    exact rgbaToGray_white
  have halphaEq : alphaOfPIL img =
      ⟨img.h, img.w, fun y x => (img.px y x).a⟩ := by
    unfold alphaOfPIL
    rw [if_pos hmode]
  have halpha : (alphaOfPIL img).IsConstOn 255 := by
    rw [halphaEq]
    intro y x hy hx
    show (img.px y x).a = 255
    rw [hconst y x hy hx]
  have hmask : (thresholdBinary (alphaOfPIL img) 128 255).IsConstOn 255 :=
    thresholdBinary_isConstOn _ 255 255 128 halpha (by norm_num)
  rw [halphaEq] at hmask
  intro y x hy hx
  simp only [create_coloring_book_effect]
  cases hhc : decide ((1/4 : ℚ) < calculate_contrast_sq img) with
  | false =>
    simp only [Bool.false_eq_true, if_false]
    have hchain := coloring_chain_zero (grayOfPIL img) 1 30 100 hgray hh hw
    rw [halphaEq, hchain y x hy hx, hmask y x hy hx]
    norm_num
  | true =>
    simp only [if_true]
    have hchain := coloring_chain_zero (grayOfPIL img) (1/2) 50 150 hgray hh hw
    rw [halphaEq, hchain y x hy hx, hmask y x hy hx]
    norm_num

/-! ## C2 — output buffers have exactly the catalog dimensions -/

/-- `convert('RGBA')` preserves dimensions. -/
theorem convertRGBA_dims (img : PILImage) :
    (img.convertRGBA).w = img.w ∧ (img.convertRGBA).h = img.h := by
  unfold PILImage.convertRGBA
  split <;> exact ⟨rfl, rfl⟩

/-- Dimension validation succeeds exactly on the 90..5000 box. -/
theorem validate_dimensions_ok (img : PILImage)
    (h1 : 90 ≤ img.w) (h2 : img.w ≤ 5000)
    (h3 : 90 ≤ img.h) (h4 : img.h ≤ 5000) :
    validate_dimensions img = .ok () := by
  unfold validate_dimensions
  rw [if_neg (by unfold DIMENSION_MIN; omega),
      if_neg (by unfold DIMENSION_MAX; omega)]

/-- A validated image flows through `process_image` to a buffer of
exactly the requested size in RGBA mode: the final canvas is freshly
allocated at `(width, height)` and pasting never alters the canvas
extent. -/
theorem process_image_ok_shape (img : PILImage) (width height : Nat)
    (bg : RGBA) (hval : validate_dimensions img = .ok ()) :
    ∃ out, process_image img width height bg = .ok out ∧
      out.w = width ∧ out.h = height ∧ out.mode = .RGBA := by
  unfold process_image
  rw [hval, except_bind_ok]
  exact ⟨_, rfl, rfl, rfl, rfl⟩

/-- Shape-transport along a successful bind. -/
theorem bind_shape {ε α β : Type} (m : Except ε α) (k : α → Except ε β)
    (P : β → Prop) (hm : ∃ a, m = .ok a)
    (hk : ∀ a, ∃ out, k a = .ok out ∧ P out) :
    ∃ out, (m >>= k) = .ok out ∧ P out := by
  obtain ⟨a, rfl⟩ := hm
  exact hk a

/-- A Bool-guarded pure branch always succeeds. -/
theorem ite_pure_ok {ε α : Type} (b : Bool) (X Y : α) :
    ∃ a, ((if b = true then pure X else pure Y : Except ε α)) = .ok a := by
  cases b
  · exact ⟨Y, rfl⟩
  · exact ⟨X, rfl⟩

/-- A validated image flows through `create_push_notification` to a
96×96 RGBA buffer: the intermediate image is 192×192 (so the
white-background gate cannot raise), the coloring-book effect preserves
dimensions, and the final resize fixes 96×96, whatever the
background-removal flag and oracle. -/
theorem create_push_ok_shape (ext : CV2Ext) (img : PILImage) (rb : Bool)
    (hval : validate_dimensions img.convertRGBA = .ok ()) :
    ∃ out, create_push_notification ext img rb = .ok out ∧
      out.w = 96 ∧ out.h = 96 ∧ out.mode = .RGBA := by
  simp only [create_push_notification]
  rw [hval, except_bind_ok]
  cases rb with
  | false => exact ⟨_, rfl, rfl, rfl, rfl⟩
  | true =>
    refine bind_shape _ _ _ ⟨_, rfl⟩ ?_
    intro a
    cases a
    · exact ⟨_, rfl, rfl, rfl, rfl⟩
    · exact ⟨_, rfl, rfl, rfl, rfl⟩

/-- C2. For every catalog format and every source image within the
90..5000 dimension bounds (any aspect ratio, including degenerate ones),
the produced buffer has exactly the format's target dimensions and RGBA
mode: via `process_image` for the seven resize formats, and via
`create_push_notification` (for either value of the removal flag and
any oracle) for PUSH. -/
theorem output_buffer_exact_dims (name : String) (cfg : FormatCfg)
    (hmem : (name, cfg) ∈ formatCatalog) (img : PILImage)
    (h1 : 90 ≤ img.w) (h2 : img.w ≤ 5000)
    (h3 : 90 ≤ img.h) (h4 : img.h ≤ 5000)
    (ext : CV2Ext) (rb : Bool) :
    (name ≠ "PUSH" →
      ∃ out, process_image img cfg.width cfg.height cfg.bg_color =
          .ok out ∧
        out.w = cfg.width ∧ out.h = cfg.height ∧ out.mode = .RGBA) ∧
    (name = "PUSH" →
      ∃ out, create_push_notification ext img rb = .ok out ∧
        out.w = cfg.width ∧ out.h = cfg.height ∧ out.mode = .RGBA) := by
  have hval : validate_dimensions img = .ok () :=
    validate_dimensions_ok img h1 h2 h3 h4
  have hvalc : validate_dimensions img.convertRGBA = .ok () := by
    obtain ⟨hcw, hch⟩ := convertRGBA_dims img
    exact validate_dimensions_ok _ (hcw ▸ h1) (hcw ▸ h2) (hch ▸ h3)
      (hch ▸ h4)
  constructor
  · intro _
    exact process_image_ok_shape img cfg.width cfg.height cfg.bg_color hval
  · intro hp
    have hcfg : cfg.width = 96 ∧ cfg.height = 96 := by
      subst hp
      simp only [formatCatalog, List.mem_cons, List.not_mem_nil, or_false,
        Prod.mk.injEq] at hmem
      rcases hmem with ⟨h, _⟩ | ⟨h, _⟩ | ⟨h, _⟩ | ⟨h, _⟩ | ⟨h, _⟩ |
        ⟨h, _⟩ | ⟨h, _⟩ | ⟨_, hc⟩ <;>
        first
        | exact absurd h (by decide)
        | (subst hc; exact ⟨rfl, rfl⟩)
    obtain ⟨out, hout, hw, hh, hm⟩ := create_push_ok_shape ext img rb hvalc
    exact ⟨out, hout, by rw [hw, hcfg.1], by rw [hh, hcfg.2], hm⟩

/-- C2, witness at FEATURE_GRAPHIC (1024×500) and PUSH (96×96) on a
100×100 white source. -/
theorem output_buffer_exact_dims_witness :
    ((("FEATURE_GRAPHIC" : String) ≠ "PUSH" →
      ∃ out, process_image (PILImage.new .RGBA 100 100 ⟨255, 255, 255, 255⟩)
          (1024 : Nat) (500 : Nat) (⟨255, 255, 255, 255⟩ : RGBA) = .ok out ∧
        out.w = 1024 ∧ out.h = 500 ∧ out.mode = .RGBA) ∧
    (("FEATURE_GRAPHIC" : String) = "PUSH" →
      ∃ out, create_push_notification extNone
          (PILImage.new .RGBA 100 100 ⟨255, 255, 255, 255⟩) false = .ok out ∧
        out.w = 1024 ∧ out.h = 500 ∧ out.mode = .RGBA)) ∧
    ((("PUSH" : String) ≠ "PUSH" →
      ∃ out, process_image (PILImage.new .RGBA 100 100 ⟨255, 255, 255, 255⟩)
          (96 : Nat) (96 : Nat) (⟨255, 255, 255, 0⟩ : RGBA) = .ok out ∧
        out.w = 96 ∧ out.h = 96 ∧ out.mode = .RGBA) ∧
    (("PUSH" : String) = "PUSH" →
      ∃ out, create_push_notification extNone
          (PILImage.new .RGBA 100 100 ⟨255, 255, 255, 255⟩) false = .ok out ∧
        out.w = 96 ∧ out.h = 96 ∧ out.mode = .RGBA)) :=
  ⟨output_buffer_exact_dims "FEATURE_GRAPHIC" ⟨1024, 500, ⟨255, 255, 255, 255⟩, 95⟩
      (by decide) (PILImage.new .RGBA 100 100 ⟨255, 255, 255, 255⟩)
      (by decide) (by decide) (by decide) (by decide) extNone false,
   output_buffer_exact_dims "PUSH" ⟨96, 96, ⟨255, 255, 255, 0⟩, 95⟩
      (by decide) (PILImage.new .RGBA 100 100 ⟨255, 255, 255, 255⟩)
      (by decide) (by decide) (by decide) (by decide) extNone false⟩

/-! ## C7 — the PUSH scenario on a 500×500 all-white source -/

/-- The scenario source: a 500×500 fully opaque all-white RGBA image. -/
def pushWhiteSrc : PILImage :=
  PILImage.new .RGBA 500 500 ⟨255, 255, 255, 255⟩

/-- The concrete pixel pipeline the PUSH path evaluates to on the
scenario source with background removal at the service default
(`False`). -/
def pushWhiteOut : PILImage :=
  (create_coloring_book_effect
    ((pushWhiteSrc.convertRGBA).resize (192, 192))).resize (96, 96)

/-- On the all-white source the PUSH pipeline succeeds and returns
exactly `pushWhiteOut`. -/
theorem pushWhite_eval :
    create_push_notification extNone pushWhiteSrc false =
      Except.ok pushWhiteOut := rfl

/-- Every pixel of the scenario output is opaque white: the 500→192
resize preserves the uniform white plane, the coloring-book effect maps
a uniform opaque-white image to a uniform opaque-white image, and the
192→96 resize preserves it again. -/
theorem pushWhiteOut_const :
    pushWhiteOut.IsConstOn ⟨255, 255, 255, 255⟩ := by
  have hsrc : (pushWhiteSrc.convertRGBA).IsConstOn ⟨255, 255, 255, 255⟩ :=
    fun _ _ _ _ => rfl
  have h192 : ((pushWhiteSrc.convertRGBA).resize (192, 192)).IsConstOn
      ⟨255, 255, 255, 255⟩ :=
    resize_isConstOn _ _ _ hsrc (by decide) (by decide) (by decide)
      (by decide) (le_refl _) (le_refl _) (le_refl _) (le_refl _)
  have hcb : (create_coloring_book_effect
      ((pushWhiteSrc.convertRGBA).resize (192, 192))).IsConstOn
      ⟨255, 255, 255, 255⟩ :=
    coloring_book_white _ rfl h192 (by decide) (by decide)
  unfold pushWhiteOut
  exact resize_isConstOn _ _ _ hcb (by decide) (by decide) (by decide)
    (by decide) (le_refl _) (le_refl _) (le_refl _) (le_refl _)

/-- The spec's C7 scenario postcondition, stated from the spec's words:
the output is 96×96 RGBA and contains a fully-transparent pixel, a
fully-opaque pixel, a pure-black pixel and a pure-white pixel. -/
def pushClaimC7 (out : PILImage) : Prop :=
  out.h = 96 ∧ out.w = 96 ∧ out.mode = .RGBA ∧
  (∃ y x, y < out.h ∧ x < out.w ∧ (out.px y x).a = 0) ∧
  (∃ y x, y < out.h ∧ x < out.w ∧ (out.px y x).a = 255) ∧
  (∃ y x, y < out.h ∧ x < out.w ∧
    (out.px y x).r = 0 ∧ (out.px y x).g = 0 ∧ (out.px y x).b = 0) ∧
  (∃ y x, y < out.h ∧ x < out.w ∧
    (out.px y x).r = 255 ∧ (out.px y x).g = 255 ∧ (out.px y x).b = 255)

/-- C7 (counterexample). The claimed scenario outcome is false: on the
500×500 opaque-white source the PUSH pipeline outputs a uniform
opaque-white 96×96 image, which has no fully-transparent pixel (and no
pure-black pixel) — a white plane has no edges, so the coloring-book
mask is empty and every pixel composes to opaque white. -/
theorem push_white_scenario_refuted :
    ¬ ∃ out, create_push_notification extNone pushWhiteSrc false =
        Except.ok out ∧ pushClaimC7 out := by
  rintro ⟨out, heq, -, -, -, ⟨y, x, hy, hx, ha0⟩, -⟩
  injection pushWhite_eval.symm.trans heq with h3
  subst h3
  rw [pushWhiteOut_const y x hy hx] at ha0
  exact absurd ha0 (by decide)

/-- C7 (amended). On the 500×500 opaque-white source the PUSH pipeline
succeeds with a 96×96 RGBA output every pixel of which is opaque white:
it does contain fully-opaque and pure-white pixels, but contains no
fully-transparent pixel and no pure-black pixel. -/
theorem push_white_scenario_actual :
    ∃ out, create_push_notification extNone pushWhiteSrc false =
        Except.ok out ∧
      out.h = 96 ∧ out.w = 96 ∧ out.mode = .RGBA ∧
      (∀ y x, y < out.h → x < out.w →
        out.px y x = (⟨255, 255, 255, 255⟩ : RGBA)) ∧
      (¬ ∃ y x, y < out.h ∧ x < out.w ∧ (out.px y x).a = 0) ∧
      (¬ ∃ y x, y < out.h ∧ x < out.w ∧
        (out.px y x).r = 0 ∧ (out.px y x).g = 0 ∧ (out.px y x).b = 0) := by
  refine ⟨pushWhiteOut, pushWhite_eval, rfl, rfl, rfl,
    pushWhiteOut_const, ?_, ?_⟩
  · rintro ⟨y, x, hy, hx, ha0⟩
    rw [pushWhiteOut_const y x hy hx] at ha0
    exact absurd ha0 (by decide)
  · rintro ⟨y, x, hy, hx, hr, -, -⟩
    rw [pushWhiteOut_const y x hy hx] at hr
    exact absurd hr (by decide)

end LogoCraft
